import Mathlib

/-!
# upsd: debounce filter and shutdown escalation

A shallow embedding of `src/upsd.c`.

* The `static` locals of `readline()` and of the `while (1)` body of `main()`
  become explicit records that are threaded through the functions.
* The `TIOCM_*` masks come from the system headers, not from the repository,
  so they are a parameter (`Tiocm`) of every definition that uses them.
* The word that an `ioctl(fd, TIOCMGET, &flags)` stores in `flags` is an input.
  The return value of `ioctl` is never inspected by the program, so a failed
  call simply leaves some word in `flags`; quantifying over every word covers it.
* The C `int` counters are mathematical integers.  `killtime` and `nextwarn`
  and the counter of `readline()` are bounded by the code itself; the counter of
  `main()` grows by `POLL_INTERVAL` per tick outside `U_OK` and would need
  `2^31` seconds to leave the range of `int`.
* The side-effecting functions `cancel`, `lowmessage`, `killups`, `shutdown`
  and `warn` are recorded, in call order, in the list of calls of a tick.
-/

namespace Upsd

set_option maxRecDepth 100000

/-! ## Constants (upsd.c, lines 11-21) -/

/-- Poll the ups this often (seconds). -/
def POLL_INTERVAL : Int := 1

/-- The ups needs this much time with the shutdown signal. -/
def KILL_TIME : Int := 10

/-- Halt the system after this much time. -/
def SHUTDOWN_TIME : Int := 300

/-- Fluctuations shorter than this time do not count. -/
def DEBOUNCE_TIME : Int := 5

/-- The modem-line masks of `<sys/ioctl.h>`, which the program takes from the
system headers. -/
structure Tiocm where
  RTS : Nat
  DTR : Nat
  CD : Nat
  CTS : Nat
deriving DecidableEq, Repr

def INIT_BITS (t : Tiocm) : Nat := t.RTS

def KILL_BITS (t : Tiocm) : Nat := t.DTR

def BATT_GOOD_BITS (t : Tiocm) : Nat := t.CD

def POWER_GOOD_BITS (t : Tiocm) : Nat := t.CTS

/-- The anonymous `enum { U_OK, U_LOW, U_FAIL }`. -/
inductive UState where
  | U_OK
  | U_LOW
  | U_FAIL
deriving DecidableEq, Repr

open UState

/-- The calls a tick of the main loop can make, with their arguments. -/
inductive Call where
  | cancel
  | lowmessage
  | killups
  | shutdown
  | warn (secondsleft : Int)
deriving DecidableEq, Repr

/-! ## Line driver (upsd.c, lines 44-90) -/

/-- The function `setline(kill)`: `flags` is the word stored by `TIOCMGET`, the
result is the word handed to `TIOCMSET`.  `flags &= ~KILL_BITS` clears the bits
of `KILL_BITS`, which on natural numbers is `Nat.ldiff`. -/
def setline (t : Tiocm) (kill : Int) (flags : Nat) : Nat :=
  let flags := flags ||| INIT_BITS t
  if kill ≠ 0 then
    flags ||| KILL_BITS t
  else
    Nat.ldiff flags (KILL_BITS t)

/-- The function `init()`. -/
def init (t : Tiocm) (flags : Nat) : Nat := setline t 0 flags

/-- The line write of `killups()`. -/
def killups (t : Tiocm) (flags : Nat) : Nat := setline t 1 flags

/-- The line write of `cancel()`, which logs and calls `init()`. -/
def cancel (t : Tiocm) (flags : Nat) : Nat := init t flags

/-! ## Debounce filter (upsd.c, lines 102-152) -/

/-- The `static` locals of `readline()`, with their initialisers. -/
structure ReadlineStatics where
  count : Int := 0
  state : UState := U_OK
  lastnextstate : UState := U_OK
deriving DecidableEq, Repr

/-- Lines 116-128 of `readline()`: the current line conditions. -/
def nextstate (t : Tiocm) (flags : Nat) : UState :=
  if (flags &&& POWER_GOOD_BITS t) ≠ POWER_GOOD_BITS t then
    if (flags &&& BATT_GOOD_BITS t) ≠ BATT_GOOD_BITS t then
      U_LOW
    else
      U_FAIL
  else
    U_OK

/-- Lines 130-151 of `readline()`, given the classification of this call.  The
value returned by `readline()` is the field `state` of the result. -/
def debounce (nextstate : UState) (s : ReadlineStatics) : ReadlineStatics :=
  let count :=
    if nextstate ≠ s.lastnextstate then
      0
    else if s.count ≤ DEBOUNCE_TIME then
      s.count + POLL_INTERVAL
    else
      s.count
  let state := if count > DEBOUNCE_TIME then nextstate else s.state
  { count := count, state := state, lastnextstate := nextstate }

/-- The function `readline()`: `flags` is the word stored by its `TIOCMGET`. -/
def readline (t : Tiocm) (flags : Nat) (s : ReadlineStatics) : ReadlineStatics :=
  debounce (nextstate t flags) s

/-! ## Escalation controller (upsd.c, lines 208-299) -/

/-- The `static` locals of the body of the main loop, with their initialisers. -/
structure MainStatics where
  count : Int := 0
  killtime : Int := 0
  laststate : UState := U_OK
  nextwarn : Int := 0
deriving DecidableEq, Repr

/-- Lines 220-231: the elapsed counter and the reset in `U_OK`. -/
def countStep (state : UState) (s : MainStatics) : MainStatics :=
  let s := if state = s.laststate then { s with count := s.count + POLL_INTERVAL } else s
  if state = U_OK then { s with count := 0, killtime := 0 } else s

/-- Lines 233-237: the reset when the power has just returned. -/
def okStep (state : UState) (s : MainStatics) : List Call :=
  if state = U_OK ∧ state ≠ s.laststate then [Call.cancel] else []

/-- Lines 239-262: the low-battery branch. -/
def lowStep (state : UState) (s : MainStatics) : MainStatics × List Call :=
  if state = U_LOW then
    let c1 := if s.laststate ≠ U_LOW then [Call.lowmessage] else []
    if s.killtime = 0 then
      ({ s with killtime := s.killtime + POLL_INTERVAL }, c1 ++ [Call.killups])
    else if s.killtime ≥ KILL_TIME then
      (s, c1 ++ [Call.shutdown])
    else
      ({ s with killtime := s.killtime + POLL_INTERVAL }, c1)
  else
    (s, [])

/-- Lines 264-294: the power-failure branch. -/
def failStep (state : UState) (s : MainStatics) : MainStatics × List Call :=
  if state = U_FAIL then
    let s := if state ≠ s.laststate then { s with nextwarn := 0 } else s
    let (s, c1) :=
      if s.count ≥ SHUTDOWN_TIME - KILL_TIME ∧ s.killtime = 0 then
        ({ s with killtime := s.killtime + POLL_INTERVAL }, [Call.killups])
      else
        (s, [])
    if s.count ≥ SHUTDOWN_TIME then
      (s, c1 ++ [Call.shutdown])
    else if s.count ≥ s.nextwarn then
      let secondsleft := SHUTDOWN_TIME - s.count
      if secondsleft ≥ 10 then
        ({ s with nextwarn := s.nextwarn + secondsleft / 2 },
          c1 ++ [Call.warn (SHUTDOWN_TIME - s.count)])
      else
        (s, c1)
    else
      (s, c1)
  else
    (s, [])

/-- One pass through the body of `while (1)`, lines 220-296, for the value
`state` returned by `readline()`: the new statics and the calls made. -/
def loopBody (state : UState) (s : MainStatics) : MainStatics × List Call :=
  let s := countStep state s
  let c0 := okStep state s
  let (s, c1) := lowStep state s
  let (s, c2) := failStep state s
  ({ s with laststate := state }, c0 ++ c1 ++ c2)

/-! ## The daemon as a whole -/

/-- What the hardware answers during one tick: `flags` is the word stored by the
`TIOCMGET` of `readline()`, `lines` the word stored by the `TIOCMGET` of
`setline()` when the tick calls it. -/
structure Reading where
  flags : Nat
  lines : Nat
deriving DecidableEq, Repr

/-- The state of the running daemon: the statics of `readline()` and of the main
loop, and `port`, the word last handed to `TIOCMSET`. -/
structure Daemon where
  rl : ReadlineStatics
  ml : MainStatics
  port : Nat
deriving DecidableEq, Repr

/-- The effect of one call on the word last written to the port. -/
def portAfter (t : Tiocm) (lines : Nat) (port : Nat) : Call → Nat
  | Call.cancel => cancel t lines
  | Call.killups => killups t lines
  | _ => port

/-- Line 206: the daemon after `init()`, before the first tick. -/
def start (t : Tiocm) (lines : Nat) : Daemon :=
  { rl := {}, ml := {}, port := init t lines }

/-- One tick of the main loop: `readline()`, then the body. -/
def tick (t : Tiocm) (r : Reading) (d : Daemon) : Daemon × List Call :=
  let rl := readline t r.flags d.rl
  let (ml, calls) := loopBody rl.state d.ml
  ({ rl := rl, ml := ml, port := calls.foldl (portAfter t r.lines) d.port }, calls)

/-- The daemon after the ticks `0, .., n - 1` of the readings `ins`, started
after an `init()` whose `TIOCMGET` stored `l0`. -/
def after (t : Tiocm) (l0 : Nat) (ins : Nat → Reading) : Nat → Daemon
  | 0 => start t l0
  | n + 1 => (tick t (ins n) (after t l0 ins n)).1

/-- The calls made on tick `n`. -/
def callsOn (t : Tiocm) (l0 : Nat) (ins : Nat → Reading) (n : Nat) : List Call :=
  (tick t (ins n) (after t l0 ins n)).2

/-- The raw classification of tick `n`. -/
def rawOn (t : Tiocm) (ins : Nat → Reading) (n : Nat) : UState :=
  nextstate t (ins n).flags

/-- The value returned by `readline()` on tick `n`: the debounced state. -/
def stateOn (t : Tiocm) (l0 : Nat) (ins : Nat → Reading) (n : Nat) : UState :=
  (after t l0 ins (n + 1)).rl.state

/-- The debounced state of the tick before tick `n`; before the first tick it
is the initial value `U_OK` of the statics. -/
def prevOn (t : Tiocm) (l0 : Nat) (ins : Nat → Reading) : Nat → UState
  | 0 => U_OK
  | n + 1 => stateOn t l0 ins n

/-- The elapsed counter `count` of the main loop on tick `n`, as the branches of
that tick see it (it is not assigned after line 229). -/
def countOn (t : Tiocm) (l0 : Nat) (ins : Nat → Reading) (n : Nat) : Int :=
  (after t l0 ins (n + 1)).ml.count

/-- The kill counter `killtime` at the end of tick `n`. -/
def killtimeOn (t : Tiocm) (l0 : Nat) (ins : Nat → Reading) (n : Nat) : Int :=
  (after t l0 ins (n + 1)).ml.killtime

/-- The warning threshold `nextwarn` at the end of tick `n`. -/
def nextwarnOn (t : Tiocm) (l0 : Nat) (ins : Nat → Reading) (n : Nat) : Int :=
  (after t l0 ins (n + 1)).ml.nextwarn

/-- The usual values of the masks (`TIOCM_DTR = 0x002`, `TIOCM_RTS = 0x004`,
`TIOCM_CTS = 0x020`, `TIOCM_CD = 0x040`), used for concrete runs. -/
def tiocm : Tiocm := { RTS := 0x004, DTR := 0x002, CD := 0x040, CTS := 0x020 }

/-- A reading with power good. -/
def rdOk : Reading := { flags := 0x060, lines := 0x060 }

/-- A reading with power failed and battery good. -/
def rdFail : Reading := { flags := 0x040, lines := 0x040 }

/-- A reading with power failed and battery low. -/
def rdLow : Reading := { flags := 0x000, lines := 0x000 }

/-- The function `term()` up to its line write: it logs and calls `init()`
before it closes the port and exits. -/
def term (t : Tiocm) (flags : Nat) : Nat := init t flags

/-- The raw classification of the call before tick `n`; before the first call
it is the initial value `U_OK` of `lastnextstate`. -/
def prevRaw (t : Tiocm) (ins : Nat → Reading) : Nat → UState
  | 0 => U_OK
  | n + 1 => rawOn t ins n

/-- The statics of the main loop after the ticks `0, .., n - 1`, when
`readline()` returns `sts k` on tick `k`. -/
def runMain (sts : Nat → UState) : Nat → MainStatics
  | 0 => {}
  | n + 1 => (loopBody (sts n) (runMain sts n)).1

/-- The calls of tick `n` of the main loop when `readline()` returns `sts k` on
tick `k`. -/
def mainCalls (sts : Nat → UState) (n : Nat) : List Call :=
  (loopBody (sts n) (runMain sts n)).2

/-- The state returned on the tick before tick `n` of `runMain`. -/
def prevSt (sts : Nat → UState) : Nat → UState
  | 0 => U_OK
  | n + 1 => sts n

/-- The count seen by the branches of a tick outside `U_OK` (lines 220-224). -/
def bump (state : UState) (s : MainStatics) : Int :=
  if state = s.laststate then s.count + POLL_INTERVAL else s.count

/-- The warning threshold a tick in `U_FAIL` compares with (lines 268-271). -/
def warnBase (s : MainStatics) : Int :=
  if s.laststate ≠ U_FAIL then 0 else s.nextwarn

/-- The number of ticks `j` with `e < j ≤ e + k` whose state equals the state of
the tick before. -/
def repeats (sts : Nat → UState) (e : Nat) : Nat → Nat
  | 0 => 0
  | k + 1 => repeats sts e k + (if sts (e + k + 1) = sts (e + k) then 1 else 0)

/-- Battery low for the first 7 ticks, then power good. -/
def lowThenOk : Nat → Reading := fun n => if n < 7 then rdLow else rdOk

/-- Power good on every tick but tick `k`, where the power has failed. -/
def glitch (k : Nat) : Nat → Reading := fun n => if n = k then rdFail else rdOk

/-- Power good on every tick. -/
def allOk : Nat → Reading := fun _ => rdOk

/-- Power failed, battery good, on every tick. -/
def allFail : Nat → Reading := fun _ => rdFail

/-- Power failed, battery low, on every tick. -/
def allLow : Nat → Reading := fun _ => rdLow

/-- Power failed for 10 ticks, then battery low for 7 ticks, then power failed. -/
def failLowFail : Nat → Reading :=
  fun n => if n < 10 then rdFail else if n < 17 then rdLow else rdFail

/-- The warning threshold after a tick of an unbroken power failure on which the
elapsed counter is `c`. -/
def failNextwarn (c : Int) : Int :=
  if c < 150 then 150 else if c < 225 then 225 else if c < 262 then 262
  else if c < 281 then 281 else if c < 290 then 290 else 295

/-- The statics of the main loop after a tick of an unbroken power failure on
which the elapsed counter is `c`. -/
def failRun (c : Int) : MainStatics :=
  { count := c, killtime := if c ≥ 290 then 1 else 0, laststate := U_FAIL,
    nextwarn := failNextwarn c }

/-- The calls of a tick of an unbroken power failure on which the elapsed
counter is `c`. -/
def failCalls (c : Int) : List Call :=
  if c = 0 then [Call.warn 300]
  else if c = 150 then [Call.warn 150]
  else if c = 225 then [Call.warn 75]
  else if c = 262 then [Call.warn 38]
  else if c = 281 then [Call.warn 19]
  else if c = 290 then [Call.killups, Call.warn 10]
  else if c ≥ 300 then [Call.shutdown]
  else []

/-- The statics of the main loop after a tick of an unbroken low-battery state
on which the elapsed counter is `c`. -/
def lowRun (c : Int) : MainStatics :=
  { count := c, killtime := min (c + 1) 10, laststate := U_LOW, nextwarn := 0 }

/-- The calls of a tick of an unbroken low-battery state on which the elapsed
counter is `c`. -/
def lowCalls (c : Int) : List Call :=
  if c = 0 then [Call.lowmessage, Call.killups]
  else if c ≥ 10 then [Call.shutdown]
  else []

/-- Power failed for 106 ticks, then battery low for 7 ticks, then power failed. -/
def failLowFailLong : Nat → Reading :=
  fun n => if n < 106 then rdFail else if n < 113 then rdLow else rdFail

/-- The debounced state `U_LOW` on every tick. -/
def constLow : Nat → UState := fun _ => U_LOW

/-- What a call `ioctl(fd, TIOCMGET, &flags)` leaves behind: the value it
returns, `-1` when it fails, and the word in `flags` after the call, which after
a failed call is whatever the local variable held before. -/
structure Ioctl where
  ret : Int
  flags : Nat
deriving DecidableEq, Repr

/-- The function `readline()` with the outcome of its `ioctl` (line 112)
explicit: the returned value is discarded and the word in `flags` is
classified. -/
def readlineIoctl (t : Tiocm) (r : Ioctl) (s : ReadlineStatics) : ReadlineStatics :=
  readline t r.flags s

/-- One tick of the main loop with the outcome of the `ioctl` of `readline()`
explicit; `lines` is the word stored by the `TIOCMGET` of `setline()`. -/
def tickIoctl (t : Tiocm) (r : Ioctl) (lines : Nat) (d : Daemon) : Daemon × List Call :=
  let rl := readlineIoctl t r d.rl
  let (ml, calls) := loopBody rl.state d.ml
  ({ rl := rl, ml := ml, port := calls.foldl (portAfter t lines) d.port }, calls)

/-- The daemon after `n` ticks on each of which the `ioctl` of `readline()`
has the outcome `r`. -/
def afterIoctl (t : Tiocm) (l0 : Nat) (r : Ioctl) : Nat → Daemon
  | 0 => start t l0
  | n + 1 => (tickIoctl t r 0 (afterIoctl t l0 r n)).1

/-- A failed `ioctl` that leaves the word 0 in `flags`. -/
def failedRead : Ioctl := { ret := -1, flags := 0 }

/-! ## Unfolding lemmas -/

theorem after_zero (t : Tiocm) (l0 : Nat) (ins : Nat → Reading) :
    after t l0 ins 0 = start t l0 := rfl

theorem after_succ_rl (t : Tiocm) (l0 : Nat) (ins : Nat → Reading) (n : Nat) :
    (after t l0 ins (n + 1)).rl = readline t (ins n).flags (after t l0 ins n).rl := rfl

theorem stateOn_eq (t : Tiocm) (l0 : Nat) (ins : Nat → Reading) (n : Nat) :
    stateOn t l0 ins n = (debounce (rawOn t ins n) (after t l0 ins n).rl).state := rfl

theorem after_succ_ml (t : Tiocm) (l0 : Nat) (ins : Nat → Reading) (n : Nat) :
    (after t l0 ins (n + 1)).ml
      = (loopBody (stateOn t l0 ins n) (after t l0 ins n).ml).1 := rfl

theorem callsOn_eq (t : Tiocm) (l0 : Nat) (ins : Nat → Reading) (n : Nat) :
    callsOn t l0 ins n = (loopBody (stateOn t l0 ins n) (after t l0 ins n).ml).2 := rfl

theorem after_succ_port (t : Tiocm) (l0 : Nat) (ins : Nat → Reading) (n : Nat) :
    (after t l0 ins (n + 1)).port
      = (callsOn t l0 ins n).foldl (portAfter t (ins n).lines) (after t l0 ins n).port := rfl

theorem loopBody_laststate (state : UState) (s : MainStatics) :
    (loopBody state s).1.laststate = state := rfl

theorem laststate_after (t : Tiocm) (l0 : Nat) (ins : Nat → Reading) (n : Nat) :
    (after t l0 ins n).ml.laststate = prevOn t l0 ins n := by
  cases n with
  | zero => rfl
  | succ n => rw [after_succ_ml, loopBody_laststate]; rfl

/-! ## The body of the loop, state by state -/

theorem loopBody_ok (s : MainStatics) :
    loopBody U_OK s
      = ({ count := 0, killtime := 0, laststate := U_OK, nextwarn := s.nextwarn },
          if s.laststate ≠ U_OK then [Call.cancel] else []) := by
  by_cases h : s.laststate = U_OK
  · simp [loopBody, countStep, okStep, lowStep, failStep, h]
  · have h2 : ¬ U_OK = s.laststate := fun e => h e.symm
    simp [loopBody, countStep, okStep, lowStep, failStep, h, h2]


theorem loopBody_low (s : MainStatics) :
    loopBody U_LOW s
      = ({ count := bump U_LOW s,
           killtime := if s.killtime = 0 then s.killtime + POLL_INTERVAL
             else if s.killtime ≥ KILL_TIME then s.killtime
             else s.killtime + POLL_INTERVAL,
           laststate := U_LOW, nextwarn := s.nextwarn },
          (if s.laststate ≠ U_LOW then [Call.lowmessage] else [])
            ++ (if s.killtime = 0 then [Call.killups]
                else if s.killtime ≥ KILL_TIME then [Call.shutdown] else [])) := by
  obtain ⟨c, k, l, w⟩ := s
  by_cases h0 : k = 0 <;> by_cases h1 : k ≥ KILL_TIME <;> cases l <;>
    simp [loopBody, countStep, okStep, lowStep, failStep, bump, h0, h1]

theorem failStep_fail (s : MainStatics) :
    failStep U_FAIL s
      = ({ count := s.count,
           killtime := if s.count ≥ SHUTDOWN_TIME - KILL_TIME ∧ s.killtime = 0
             then s.killtime + POLL_INTERVAL else s.killtime,
           laststate := s.laststate,
           nextwarn := if s.count ≥ SHUTDOWN_TIME then warnBase s
             else if s.count ≥ warnBase s ∧ SHUTDOWN_TIME - s.count ≥ 10
             then warnBase s + (SHUTDOWN_TIME - s.count) / 2 else warnBase s },
          (if s.count ≥ SHUTDOWN_TIME - KILL_TIME ∧ s.killtime = 0
              then [Call.killups] else [])
            ++ (if s.count ≥ SHUTDOWN_TIME then [Call.shutdown]
                else if s.count ≥ warnBase s ∧ SHUTDOWN_TIME - s.count ≥ 10
                then [Call.warn (SHUTDOWN_TIME - s.count)] else [])) := by
  obtain ⟨c, k, l, w⟩ := s
  have hl : (U_FAIL ≠ l) = (l ≠ U_FAIL) := by
    apply propext; constructor <;> intro h e <;> exact h e.symm
  simp only [failStep, warnBase, if_true, hl]
  by_cases h0 : l ≠ U_FAIL <;> by_cases h1 : c ≥ SHUTDOWN_TIME - KILL_TIME
    <;> by_cases h2 : k = 0 <;> by_cases h3 : c ≥ SHUTDOWN_TIME
    <;> simp only [h0, h1, h2, h3, if_true, if_false, and_true, and_false, true_and, false_and,
          not_true_eq_false, not_false_eq_true]
    <;> split_ifs <;> first | rfl | simp_all

theorem loopBody_fail (s : MainStatics) :
    loopBody U_FAIL s
      = ({ count := bump U_FAIL s,
           killtime := if bump U_FAIL s ≥ SHUTDOWN_TIME - KILL_TIME ∧ s.killtime = 0
             then s.killtime + POLL_INTERVAL else s.killtime,
           laststate := U_FAIL,
           nextwarn := if bump U_FAIL s ≥ SHUTDOWN_TIME then warnBase s
             else if bump U_FAIL s ≥ warnBase s ∧ SHUTDOWN_TIME - bump U_FAIL s ≥ 10
             then warnBase s + (SHUTDOWN_TIME - bump U_FAIL s) / 2 else warnBase s },
          (if bump U_FAIL s ≥ SHUTDOWN_TIME - KILL_TIME ∧ s.killtime = 0
              then [Call.killups] else [])
            ++ (if bump U_FAIL s ≥ SHUTDOWN_TIME then [Call.shutdown]
                else if bump U_FAIL s ≥ warnBase s ∧ SHUTDOWN_TIME - bump U_FAIL s ≥ 10
                then [Call.warn (SHUTDOWN_TIME - bump U_FAIL s)] else [])) := by
  have hcs : countStep U_FAIL s
      = { count := bump U_FAIL s, killtime := s.killtime, laststate := s.laststate,
          nextwarn := s.nextwarn } := by
    obtain ⟨c, k, l, w⟩ := s
    cases l <;> simp [countStep, bump]
  have hok : ∀ x, okStep U_FAIL x = [] := fun x => by simp [okStep]
  have hlow : ∀ x, lowStep U_FAIL x = (x, []) := fun x => by simp [lowStep]
  simp only [loopBody, hok, hlow, hcs, failStep_fail]
  rfl


/-! ## The main loop over the debounced states -/

theorem after_ml_eq (t : Tiocm) (l0 : Nat) (ins : Nat → Reading) (n : Nat) :
    (after t l0 ins n).ml = runMain (stateOn t l0 ins) n := by
  induction n with
  | zero => rfl
  | succ n ih => rw [after_succ_ml, ih]; rfl

theorem callsOn_eq_mainCalls (t : Tiocm) (l0 : Nat) (ins : Nat → Reading) (n : Nat) :
    callsOn t l0 ins n = mainCalls (stateOn t l0 ins) n := by
  rw [callsOn_eq, after_ml_eq]; rfl

theorem prevOn_eq_prevSt (t : Tiocm) (l0 : Nat) (ins : Nat → Reading) (n : Nat) :
    prevOn t l0 ins n = prevSt (stateOn t l0 ins) n := by
  cases n <;> rfl

theorem runMain_succ (sts : Nat → UState) (n : Nat) :
    runMain sts (n + 1) = (loopBody (sts n) (runMain sts n)).1 := rfl

theorem runMain_laststate (sts : Nat → UState) (n : Nat) :
    (runMain sts n).laststate = prevSt sts n := by
  cases n with
  | zero => rfl
  | succ n => rw [runMain_succ, loopBody_laststate]; rfl

/-- One tick keeps the bounds of the counters of the main loop. -/
theorem loopBody_bounds (st : UState) (s : MainStatics)
    (h : 0 ≤ s.killtime ∧ s.killtime ≤ KILL_TIME ∧ 0 ≤ s.count) :
    0 ≤ (loopBody st s).1.killtime ∧ (loopBody st s).1.killtime ≤ KILL_TIME
      ∧ 0 ≤ (loopBody st s).1.count := by
  obtain ⟨h1, h2, h3⟩ := h
  cases st
  · rw [loopBody_ok]; simp [KILL_TIME]
  · rw [loopBody_low]
    simp only [bump, KILL_TIME, POLL_INTERVAL] at *
    refine ⟨?_, ?_, ?_⟩ <;> split_ifs <;> omega
  · rw [loopBody_fail]
    simp only [bump, KILL_TIME, POLL_INTERVAL, SHUTDOWN_TIME] at *
    refine ⟨?_, ?_, ?_⟩ <;> split_ifs <;> omega

theorem runMain_bounds (sts : Nat → UState) (n : Nat) :
    0 ≤ (runMain sts n).killtime ∧ (runMain sts n).killtime ≤ KILL_TIME
      ∧ 0 ≤ (runMain sts n).count := by
  induction n with
  | zero => simp [runMain, KILL_TIME]
  | succ n ih => rw [runMain_succ]; exact loopBody_bounds _ _ ih

/-- After a tick in `U_OK` both counters are zero. -/
theorem runMain_after_ok (sts : Nat → UState) (n : Nat) (h : prevSt sts n = U_OK) :
    (runMain sts n).killtime = 0 ∧ (runMain sts n).count = 0 := by
  cases n with
  | zero => exact ⟨rfl, rfl⟩
  | succ n =>
    have h2 : sts n = U_OK := h
    rw [runMain_succ, h2, loopBody_ok]
    exact ⟨rfl, rfl⟩

/-! ## The line driver, bit by bit -/

theorem setline_testBit (t : Tiocm) (kill : Int) (f i : Nat) :
    (setline t kill f).testBit i
      = if kill ≠ 0 then (f.testBit i || (INIT_BITS t).testBit i || (KILL_BITS t).testBit i)
        else ((f.testBit i || (INIT_BITS t).testBit i) && !(KILL_BITS t).testBit i) := by
  unfold setline
  by_cases h : kill ≠ 0
  · simp [h, Nat.testBit_or]
  · simp [h, Nat.testBit_ldiff, Nat.testBit_or]

theorem setline_zero_land (t : Tiocm) (f : Nat) : setline t 0 f &&& KILL_BITS t = 0 := by
  apply Nat.eq_of_testBit_eq
  intro i
  rw [Nat.testBit_and, setline_testBit]
  simp


/-! ## The word on the port -/

theorem foldl_portAfter_of_no_write (t : Tiocm) (lines port : Nat) (cs : List Call)
    (h1 : Call.cancel ∉ cs) (h2 : Call.killups ∉ cs) :
    cs.foldl (portAfter t lines) port = port := by
  induction cs generalizing port with
  | nil => rfl
  | cons c cs ih =>
    simp only [List.mem_cons, not_or] at h1 h2
    rw [List.foldl_cons, ih _ h1.2 h2.2]
    cases c <;> first | rfl | exact absurd rfl h1.1 | exact absurd rfl h2.1

/-- While `killtime` is zero, the word last written has the kill bits clear. -/
theorem port_kill_clear (t : Tiocm) (l0 : Nat) (ins : Nat → Reading) (n : Nat) :
    (after t l0 ins n).ml.killtime = 0 → (after t l0 ins n).port &&& KILL_BITS t = 0 := by
  induction n with
  | zero => intro _; exact setline_zero_land t l0
  | succ n ih =>
    have hb := runMain_bounds (stateOn t l0 ins) n
    have hl := runMain_laststate (stateOn t l0 ins) n
    have hok := runMain_after_ok (stateOn t l0 ins) n
    rw [after_ml_eq] at ih
    rw [after_succ_port, callsOn_eq, after_succ_ml, after_ml_eq]
    generalize runMain (stateOn t l0 ins) n = s at *
    cases hst : stateOn t l0 ins n
    · intro _
      rw [loopBody_ok]
      by_cases hp : s.laststate = U_OK
      · have hk := (hok (hl ▸ hp)).1
        simpa [hp] using ih hk
      · simp only [hp, ne_eq, not_false_eq_true, if_true, List.foldl_cons, List.foldl_nil,
          portAfter]
        exact setline_zero_land t _
    · rw [loopBody_low]
      simp only [KILL_TIME, POLL_INTERVAL] at *
      intro hk
      exfalso
      split_ifs at hk <;> omega
    · rw [loopBody_fail]
      simp only [KILL_TIME, POLL_INTERVAL, SHUTDOWN_TIME] at *
      intro hk
      have hk0 : s.killtime = 0 := by split_ifs at hk <;> omega
      have hc : ¬ (bump U_FAIL s ≥ 300 - 10 ∧ s.killtime = 0) := by
        intro hc; rw [if_pos hc] at hk; omega
      rw [if_neg hc, List.nil_append, foldl_portAfter_of_no_write]
      · exact ih hk0
      · split_ifs <;> simp
      · split_ifs <;> simp

/-- C1: after every tick whose debounced state is `U_OK` the kill counter is 0
and the word last written to the port has the kill bits clear; and when the
state of the tick before was not `U_OK`, `cancel()` is called on this tick and
the word on the port is the one its `setline(0)` wrote. -/
theorem ok_tick_kill_deasserted (t : Tiocm) (l0 : Nat) (ins : Nat → Reading) (n : Nat)
    (h : stateOn t l0 ins n = U_OK) :
    killtimeOn t l0 ins n = 0
      ∧ (after t l0 ins (n + 1)).port &&& KILL_BITS t = 0
      ∧ (prevOn t l0 ins n ≠ U_OK →
          Call.cancel ∈ callsOn t l0 ins n
            ∧ (after t l0 ins (n + 1)).port = setline t 0 (ins n).lines) := by
  have hk : killtimeOn t l0 ins n = 0 := by
    unfold killtimeOn
    rw [after_succ_ml, h, loopBody_ok]
  refine ⟨hk, port_kill_clear t l0 ins (n + 1) hk, ?_⟩
  intro hp
  rw [← laststate_after] at hp
  rw [after_succ_port, callsOn_eq, h, loopBody_ok]
  simp [hp, portAfter, cancel, init]

theorem ok_tick_kill_deasserted_witness :
    stateOn tiocm 0 lowThenOk 13 = U_OK ∧ prevOn tiocm 0 lowThenOk 13 ≠ U_OK
      ∧ (after tiocm 0 lowThenOk 13).port &&& KILL_BITS tiocm ≠ 0
      ∧ killtimeOn tiocm 0 lowThenOk 13 = 0
      ∧ (after tiocm 0 lowThenOk 14).port &&& KILL_BITS tiocm = 0
      ∧ Call.cancel ∈ callsOn tiocm 0 lowThenOk 13 :=
  have h := ok_tick_kill_deasserted tiocm 0 lowThenOk 13 (by decide)
  ⟨by decide, by decide, by decide, h.1, h.2.1, (h.2.2 (by decide)).1⟩

/-! ## The debounce filter along a run -/

theorem rl_state_after (t : Tiocm) (l0 : Nat) (ins : Nat → Reading) (n : Nat) :
    (after t l0 ins n).rl.state = prevOn t l0 ins n := by
  cases n <;> rfl

theorem rl_succ (t : Tiocm) (l0 : Nat) (ins : Nat → Reading) (n : Nat) :
    (after t l0 ins (n + 1)).rl = debounce (rawOn t ins n) (after t l0 ins n).rl := rfl

theorem rl_lastnextstate (t : Tiocm) (l0 : Nat) (ins : Nat → Reading) (n : Nat) :
    (after t l0 ins n).rl.lastnextstate = prevRaw t ins n := by
  cases n <;> rfl

theorem debounce_count (v : UState) (s : ReadlineStatics) :
    (debounce v s).count
      = if v ≠ s.lastnextstate then 0
        else if s.count ≤ DEBOUNCE_TIME then s.count + POLL_INTERVAL else s.count := rfl

theorem debounce_state (v : UState) (s : ReadlineStatics) :
    (debounce v s).state
      = if (debounce v s).count > DEBOUNCE_TIME then v else s.state := rfl

theorem rl_count_bounds (t : Tiocm) (l0 : Nat) (ins : Nat → Reading) (n : Nat) :
    0 ≤ (after t l0 ins n).rl.count
      ∧ (after t l0 ins n).rl.count ≤ DEBOUNCE_TIME + POLL_INTERVAL := by
  induction n with
  | zero => simp [after, start, DEBOUNCE_TIME, POLL_INTERVAL]
  | succ n ih =>
    rw [rl_succ, debounce_count]
    simp only [DEBOUNCE_TIME, POLL_INTERVAL] at *
    split_ifs <;> omega

/-- A counter value `c` records `c + 1` equal classifications in a row, the
initial `U_OK` of `lastnextstate` counting as the classification before tick 0. -/
theorem rl_count_raws (t : Tiocm) (l0 : Nat) (ins : Nat → Reading) (n : Nat) :
    ∀ j : Nat, (j : Int) ≤ (after t l0 ins n).rl.count →
      prevRaw t ins (n - j) = prevRaw t ins n := by
  induction n with
  | zero => intro j _; simp
  | succ n ih =>
    intro j hj
    rw [rl_succ, debounce_count, rl_lastnextstate] at hj
    cases j with
    | zero => rfl
    | succ j =>
      have hb := rl_count_bounds t l0 ins n
      simp only [DEBOUNCE_TIME, POLL_INTERVAL] at hj hb
      by_cases hv : rawOn t ins n ≠ prevRaw t ins n
      · rw [if_pos hv] at hj; omega
      · rw [if_neg hv] at hj
        have hv2 : rawOn t ins n = prevRaw t ins n := not_not.mp hv
        have hj2 : (j : Int) ≤ (after t l0 ins n).rl.count := by
          split_ifs at hj <;> omega
        have := ih j hj2
        rw [Nat.add_sub_add_right, this]
        exact hv2.symm

/-- On every tick the returned state is the one of the tick before, unless the
counter has passed `DEBOUNCE_TIME`, when it is the classification of the tick. -/
theorem stateOn_step (t : Tiocm) (l0 : Nat) (ins : Nat → Reading) (n : Nat) :
    stateOn t l0 ins n
      = if (after t l0 ins (n + 1)).rl.count > DEBOUNCE_TIME then rawOn t ins n
        else prevOn t l0 ins n := by
  rw [← rl_state_after]; rfl

theorem stateOn_change (t : Tiocm) (l0 : Nat) (ins : Nat → Reading) (n : Nat)
    (h : stateOn t l0 ins n ≠ prevOn t l0 ins n) :
    (6 : Int) ≤ (after t l0 ins (n + 1)).rl.count ∧ stateOn t l0 ins n = rawOn t ins n := by
  rw [stateOn_step] at h ⊢
  by_cases hc : (after t l0 ins (n + 1)).rl.count > DEBOUNCE_TIME
  · rw [if_pos hc]
    simp only [DEBOUNCE_TIME] at hc
    exact ⟨by omega, rfl⟩
  · rw [if_neg hc] at h; exact absurd rfl h

theorem stateOn_early_aux (t : Tiocm) (l0 : Nat) (ins : Nat → Reading) (n : Nat) (hn : n < 6)
    (hp : prevOn t l0 ins n = U_OK) : stateOn t l0 ins n = U_OK := by
  by_contra h
  have hc := stateOn_change t l0 ins n (by rw [hp]; exact h)
  have hc1 : ((n + 1 : Nat) : Int) ≤ (after t l0 ins (n + 1)).rl.count := by
    have := hc.1
    push_cast
    omega
  have := rl_count_raws t l0 ins (n + 1) (n + 1) hc1
  rw [Nat.sub_self] at this
  exact h (hc.2.trans this.symm)

theorem stateOn_early (t : Tiocm) (l0 : Nat) (ins : Nat → Reading) (n : Nat) (hn : n < 6) :
    stateOn t l0 ins n = U_OK := by
  induction n with
  | zero => exact stateOn_early_aux t l0 ins 0 hn rfl
  | succ n ih => exact stateOn_early_aux t l0 ins (n + 1) hn (ih (by omega))

/-- A change of the returned state needs seven equal classifications. -/
theorem stateOn_change_raws (t : Tiocm) (l0 : Nat) (ins : Nat → Reading) (n : Nat)
    (h : stateOn t l0 ins n ≠ prevOn t l0 ins n) :
    6 ≤ n ∧ ∀ j, j ≤ 6 → rawOn t ins (n - j) = stateOn t l0 ins n := by
  have hc := stateOn_change t l0 ins n h
  have h6 : 6 ≤ n := by
    by_contra hn
    have h0 := stateOn_early t l0 ins n (by omega)
    have hp : prevOn t l0 ins n = U_OK := by
      cases n with
      | zero => rfl
      | succ m => exact stateOn_early t l0 ins m (by omega)
    exact h (h0.trans hp.symm)
  refine ⟨h6, fun j hj => ?_⟩
  have := rl_count_raws t l0 ins (n + 1) j (by omega)
  have e1 : n + 1 - j = (n - j) + 1 := by omega
  rw [e1] at this
  rw [hc.2]; exact this

theorem stateOn_of_raw_ne (t : Tiocm) (l0 : Nat) (ins : Nat → Reading) (n : Nat)
    (h : rawOn t ins n ≠ prevRaw t ins n) : stateOn t l0 ins n = prevOn t l0 ins n := by
  rw [stateOn_step, rl_succ, debounce_count, rl_lastnextstate, if_pos h]
  simp [DEBOUNCE_TIME]

theorem stateOn_const_of_raws (t : Tiocm) (l0 : Nat) (ins : Nat → Reading) (m : Nat) (w : UState)
    (hm : stateOn t l0 ins m = w) (k : Nat) (hr : ∀ i, i ≤ k → rawOn t ins (m + i) = w) :
    stateOn t l0 ins (m + k) = w := by
  induction k with
  | zero => exact hm
  | succ k ih =>
    have ih2 := ih (fun i hi => hr i (by omega))
    rw [← Nat.add_assoc, stateOn_step]
    split_ifs
    · exact hr (k + 1) (le_refl _)
    · exact ih2

/-- C2: the value returned by `readline()` differs from the one of the call
before only on a call whose classification, and that of each of the 6 calls
before it, equal the new value; a classification that lasts one tick leaves the
returned value as it was, on its tick and on the next; with power good on every
tick but one the returned value is always `U_OK`; and two changes of the
returned value are more than 6 ticks apart. -/
theorem debounce_needs_seven (t : Tiocm) (l0 : Nat) (ins : Nat → Reading) :
    (∀ n, stateOn t l0 ins n ≠ prevOn t l0 ins n →
        6 ≤ n ∧ ∀ j, j ≤ 6 → rawOn t ins (n - j) = stateOn t l0 ins n)
      ∧ (∀ k, rawOn t ins k ≠ prevRaw t ins k → rawOn t ins (k + 1) ≠ rawOn t ins k →
          stateOn t l0 ins k = prevOn t l0 ins k ∧ stateOn t l0 ins (k + 1) = prevOn t l0 ins k)
      ∧ (∀ k, (∀ i, i ≠ k → rawOn t ins i = U_OK) → ∀ n, stateOn t l0 ins n = U_OK)
      ∧ (∀ m n, m < n → stateOn t l0 ins m ≠ prevOn t l0 ins m →
          stateOn t l0 ins n ≠ prevOn t l0 ins n → m + 6 < n) := by
  refine ⟨stateOn_change_raws t l0 ins, ?_, ?_, ?_⟩
  · intro k h1 h2
    have e1 := stateOn_of_raw_ne t l0 ins k h1
    have e2 := stateOn_of_raw_ne t l0 ins (k + 1) h2
    exact ⟨e1, e2.trans e1⟩
  · intro k hk n
    induction n with
    | zero => exact stateOn_early t l0 ins 0 (by omega)
    | succ n ih =>
      by_contra h
      have hch : stateOn t l0 ins (n + 1) ≠ prevOn t l0 ins (n + 1) := fun e => h (e.trans ih)
      obtain ⟨h6, hr⟩ := stateOn_change_raws t l0 ins (n + 1) hch
      by_cases hnk : n + 1 = k
      · have := hr 1 (by omega)
        rw [hk (n + 1 - 1) (by omega)] at this
        exact h this.symm
      · have := hr 0 (by omega)
        rw [hk (n + 1 - 0) (by omega)] at this
        exact h this.symm
  · intro m n hmn hm hn
    by_contra hgap
    obtain ⟨_, hrn⟩ := stateOn_change_raws t l0 ins n hn
    obtain ⟨_, hrm⟩ := stateOn_change_raws t l0 ins m hm
    have hraw : ∀ i, i ≤ n - 1 - m → rawOn t ins (m + i) = stateOn t l0 ins n := by
      intro i hi
      have := hrn (n - (m + i)) (by omega)
      rwa [show n - (n - (m + i)) = m + i by omega] at this
    have hm0 : stateOn t l0 ins m = stateOn t l0 ins n := by
      rw [← hrm 0 (by omega)]
      exact hraw 0 (by omega)
    have := stateOn_const_of_raws t l0 ins m _ hm0 (n - 1 - m) hraw
    rw [show m + (n - 1 - m) = n - 1 by omega] at this
    apply hn
    obtain ⟨p, rfl⟩ : ∃ p, n = p + 1 := ⟨n - 1, by omega⟩
    exact this.symm

theorem debounce_needs_seven_witness :
    stateOn tiocm 0 (glitch 100) 100 = U_OK ∧ stateOn tiocm 0 (glitch 100) 250 = U_OK :=
  have h := (debounce_needs_seven tiocm 0 (glitch 100)).2.2.1 100
    (fun i hi => by simp [rawOn, glitch, hi]; rfl)
  ⟨h 100, h 250⟩

theorem rl_count_sustained (t : Tiocm) (l0 : Nat) (ins : Nat → Reading) (k m : Nat) (v : UState)
    (hchg : prevRaw t ins k ≠ v) (hstay : ∀ j, j ≤ m → rawOn t ins (k + j) = v) :
    ∀ j, j ≤ m → (after t l0 ins (k + j + 1)).rl.count = min (j : Int) 6 := by
  intro j
  induction j with
  | zero =>
    intro _
    have h0 : rawOn t ins k = v := hstay 0 (by omega)
    rw [rl_succ, debounce_count, rl_lastnextstate, if_pos (by rw [h0]; exact hchg.symm)]
    simp
  | succ j ih =>
    intro hj
    have ih2 := ih (by omega)
    have h1 := hstay (j + 1) hj
    have h0 := hstay j (by omega)
    have hp : prevRaw t ins (k + (j + 1)) = v := h0
    rw [rl_succ, debounce_count, rl_lastnextstate, hp, h1, if_neg (by simp)]
    rw [show k + (j + 1) = k + j + 1 by omega, ih2]
    simp only [DEBOUNCE_TIME, POLL_INTERVAL]
    push_cast
    split_ifs <;> omega

/-- C3: when the classification changes to `v` on tick `k` and stays `v` up to
tick `k + m`, `readline()` returns on the ticks `k, .., k + 5` what it returned
before tick `k`, and `v` from tick `k + 6` on; with `k = 0` this is the run from
the initial statics, whose value before tick 0 is `U_OK`. -/
theorem debounce_latency (t : Tiocm) (l0 : Nat) (ins : Nat → Reading) (k m : Nat) (v : UState)
    (hchg : prevRaw t ins k ≠ v) (hstay : ∀ j, j ≤ m → rawOn t ins (k + j) = v) :
    ∀ j, j ≤ m → stateOn t l0 ins (k + j) = if j < 6 then prevOn t l0 ins k else v := by
  intro j
  induction j with
  | zero =>
    intro _
    have hc := rl_count_sustained t l0 ins k m v hchg hstay 0 (by omega)
    rw [stateOn_step, hc]
    simp [DEBOUNCE_TIME]
  | succ j ih =>
    intro hj
    have ih2 := ih (by omega)
    have hc := rl_count_sustained t l0 ins k m v hchg hstay (j + 1) hj
    have hp : prevOn t l0 ins (k + (j + 1)) = stateOn t l0 ins (k + j) := rfl
    rw [stateOn_step, hc, hp, ih2, hstay (j + 1) hj]
    simp only [DEBOUNCE_TIME]
    push_cast
    split_ifs <;> first | rfl | omega

theorem debounce_latency_witness :
    stateOn tiocm 0 allFail 5 = U_OK ∧ stateOn tiocm 0 allFail 6 = U_FAIL
      ∧ stateOn tiocm 0 allFail 40 = U_FAIL :=
  have h := debounce_latency tiocm 0 allFail 0 40 U_FAIL (by decide)
    (fun _ _ => show nextstate tiocm rdFail.flags = U_FAIL by decide)
  ⟨h 5 (by decide), h 6 (by decide), h 40 (by decide)⟩

/-- C15: in every state that calls of `readline()` reach, its counter is between
0 and `DEBOUNCE_TIME + POLL_INTERVAL = 6`, and a call whose classification
equals the one of the call before sets it to
`min (count + POLL_INTERVAL) (DEBOUNCE_TIME + POLL_INTERVAL)`. -/
theorem debounce_counter_saturates (t : Tiocm) (l0 : Nat) (ins : Nat → Reading) (n : Nat) :
    0 ≤ (after t l0 ins n).rl.count
      ∧ (after t l0 ins n).rl.count ≤ DEBOUNCE_TIME + POLL_INTERVAL
      ∧ DEBOUNCE_TIME + POLL_INTERVAL = 6
      ∧ (rawOn t ins n = prevRaw t ins n →
          (after t l0 ins (n + 1)).rl.count
            = min ((after t l0 ins n).rl.count + POLL_INTERVAL)
                (DEBOUNCE_TIME + POLL_INTERVAL)) := by
  have hb := rl_count_bounds t l0 ins n
  refine ⟨hb.1, hb.2, rfl, ?_⟩
  intro h
  rw [rl_succ, debounce_count, rl_lastnextstate, if_neg (by simp [h])]
  simp only [DEBOUNCE_TIME, POLL_INTERVAL] at *
  split_ifs <;> omega

theorem debounce_counter_saturates_witness :
    (after tiocm 0 allOk 9).rl.count = 6 ∧ (after tiocm 0 allOk 10).rl.count = 6 :=
  ⟨by decide,
    ((debounce_counter_saturates tiocm 0 allOk 9).2.2.2 (by decide)).trans (by decide)⟩

/-! ## Which calls a tick makes -/

theorem mem_loopBody_cancel (st : UState) (s : MainStatics) :
    Call.cancel ∈ (loopBody st s).2 ↔ st = U_OK ∧ s.laststate ≠ U_OK := by
  cases st
  · rw [loopBody_ok]; by_cases h : s.laststate = U_OK <;> simp [h]
  · rw [loopBody_low]; simp only [reduceCtorEq, false_and, iff_false]; split_ifs <;> simp
  · rw [loopBody_fail]; simp only [reduceCtorEq, false_and, iff_false]; split_ifs <;> simp

theorem mem_loopBody_lowmessage (st : UState) (s : MainStatics) :
    Call.lowmessage ∈ (loopBody st s).2 ↔ st = U_LOW ∧ s.laststate ≠ U_LOW := by
  cases st
  · rw [loopBody_ok]; simp only [reduceCtorEq, false_and, iff_false]; split_ifs <;> simp
  · rw [loopBody_low]
    by_cases h : s.laststate = U_LOW
    · simp only [h, ne_eq, not_true_eq_false, if_false, List.nil_append, and_false, iff_false]
      split_ifs <;> simp
    · simp [h]
  · rw [loopBody_fail]; simp only [reduceCtorEq, false_and, iff_false]; split_ifs <;> simp

theorem mem_loopBody_killups (st : UState) (s : MainStatics) :
    Call.killups ∈ (loopBody st s).2
      ↔ (st = U_LOW ∧ s.killtime = 0)
        ∨ (st = U_FAIL ∧ bump U_FAIL s ≥ SHUTDOWN_TIME - KILL_TIME ∧ s.killtime = 0) := by
  cases st
  · rw [loopBody_ok]; simp only [reduceCtorEq, false_and, or_self, iff_false]
    split_ifs <;> simp
  · rw [loopBody_low]
    simp only [reduceCtorEq, false_and, or_false, true_and]
    split_ifs <;> simp [*]
  · rw [loopBody_fail]
    simp only [reduceCtorEq, false_and, false_or, true_and]
    split_ifs <;> simp_all

theorem mem_loopBody_shutdown (st : UState) (s : MainStatics) :
    Call.shutdown ∈ (loopBody st s).2
      ↔ (st = U_LOW ∧ s.killtime ≠ 0 ∧ s.killtime ≥ KILL_TIME)
        ∨ (st = U_FAIL ∧ bump U_FAIL s ≥ SHUTDOWN_TIME) := by
  cases st
  · rw [loopBody_ok]; simp only [reduceCtorEq, false_and, or_self, iff_false]
    split_ifs <;> simp
  · rw [loopBody_low]
    simp only [reduceCtorEq, false_and, or_false, true_and]
    split_ifs <;> simp [*]
  · rw [loopBody_fail]
    simp only [reduceCtorEq, false_and, false_or, true_and]
    split_ifs <;> simp_all

theorem mem_loopBody_warn (st : UState) (s : MainStatics) (x : Int) :
    Call.warn x ∈ (loopBody st s).2
      ↔ st = U_FAIL ∧ ¬ bump U_FAIL s ≥ SHUTDOWN_TIME ∧ bump U_FAIL s ≥ warnBase s
        ∧ SHUTDOWN_TIME - bump U_FAIL s ≥ 10 ∧ x = SHUTDOWN_TIME - bump U_FAIL s := by
  cases st
  · rw [loopBody_ok]; simp only [reduceCtorEq, false_and, iff_false]
    split_ifs <;> simp
  · rw [loopBody_low]
    simp only [reduceCtorEq, false_and, iff_false]
    split_ifs <;> simp
  · rw [loopBody_fail]
    simp only [true_and]
    split_ifs <;> simp_all

theorem loopBody_count (st : UState) (s : MainStatics) :
    (loopBody st s).1.count = if st = U_OK then 0 else bump st s := by
  cases st
  · rw [loopBody_ok]; rfl
  · rw [loopBody_low]; rfl
  · rw [loopBody_fail]; rfl

theorem count_le_one_loopBody (st : UState) (s : MainStatics) :
    (loopBody st s).2.count Call.lowmessage ≤ 1 ∧ (loopBody st s).2.count Call.cancel ≤ 1 := by
  cases st
  · rw [loopBody_ok]; constructor <;> split_ifs <;> simp
  · rw [loopBody_low]; constructor <;> split_ifs <;> simp
  · rw [loopBody_fail]; constructor <;> split_ifs <;> simp

/-- C7: on every tick `lowmessage()` is called exactly when the debounced state
is `U_LOW` and the state of the tick before was not, and `cancel()` exactly when
the state is `U_OK` and the state of the tick before was not; each is called at
most once on a tick, and not at all on a tick whose state is that of the tick
before. -/
theorem entry_actions_once (t : Tiocm) (l0 : Nat) (ins : Nat → Reading) (n : Nat) :
    (Call.lowmessage ∈ callsOn t l0 ins n
        ↔ stateOn t l0 ins n = U_LOW ∧ prevOn t l0 ins n ≠ U_LOW)
      ∧ (Call.cancel ∈ callsOn t l0 ins n
        ↔ stateOn t l0 ins n = U_OK ∧ prevOn t l0 ins n ≠ U_OK)
      ∧ (callsOn t l0 ins n).count Call.lowmessage ≤ 1
      ∧ (callsOn t l0 ins n).count Call.cancel ≤ 1
      ∧ (stateOn t l0 ins n = prevOn t l0 ins n →
          Call.lowmessage ∉ callsOn t l0 ins n ∧ Call.cancel ∉ callsOn t l0 ins n) := by
  have h1 : Call.lowmessage ∈ callsOn t l0 ins n
      ↔ stateOn t l0 ins n = U_LOW ∧ prevOn t l0 ins n ≠ U_LOW := by
    rw [callsOn_eq, mem_loopBody_lowmessage, laststate_after]
  have h2 : Call.cancel ∈ callsOn t l0 ins n
      ↔ stateOn t l0 ins n = U_OK ∧ prevOn t l0 ins n ≠ U_OK := by
    rw [callsOn_eq, mem_loopBody_cancel, laststate_after]
  refine ⟨h1, h2, ?_, ?_, ?_⟩
  · rw [callsOn_eq]; exact (count_le_one_loopBody _ _).1
  · rw [callsOn_eq]; exact (count_le_one_loopBody _ _).2
  · intro he
    rw [h1, h2, he]
    exact ⟨fun h => h.2 h.1, fun h => h.2 h.1⟩

theorem entry_actions_once_witness :
    Call.lowmessage ∈ callsOn tiocm 0 allLow 6 ∧ Call.lowmessage ∉ callsOn tiocm 0 allLow 7
      ∧ Call.cancel ∈ callsOn tiocm 0 lowThenOk 13
      ∧ Call.cancel ∉ callsOn tiocm 0 lowThenOk 14 :=
  ⟨(entry_actions_once tiocm 0 allLow 6).1.2 (by decide),
    ((entry_actions_once tiocm 0 allLow 7).2.2.2.2 (by decide)).1,
    (entry_actions_once tiocm 0 lowThenOk 13).2.1.2 (by decide),
    ((entry_actions_once tiocm 0 lowThenOk 14).2.2.2.2 (by decide)).2⟩

/-- C16: on a tick whose debounced state is `U_OK` the main loop leaves
`count = 0` and `killtime = 0` and calls none of `killups()`, `shutdown()`,
`lowmessage()`, `warn()`; when the state of the tick before was `U_OK` too, it
makes no call at all. -/
theorem steady_ok_inert (t : Tiocm) (l0 : Nat) (ins : Nat → Reading) (n : Nat)
    (h : stateOn t l0 ins n = U_OK) :
    countOn t l0 ins n = 0 ∧ killtimeOn t l0 ins n = 0
      ∧ Call.killups ∉ callsOn t l0 ins n ∧ Call.shutdown ∉ callsOn t l0 ins n
      ∧ Call.lowmessage ∉ callsOn t l0 ins n ∧ (∀ x, Call.warn x ∉ callsOn t l0 ins n)
      ∧ (prevOn t l0 ins n = U_OK → callsOn t l0 ins n = []) := by
  refine ⟨?_, ?_, ?_, ?_, ?_, ?_, ?_⟩
  · unfold countOn; rw [after_succ_ml, h, loopBody_ok]
  · unfold killtimeOn; rw [after_succ_ml, h, loopBody_ok]
  · rw [callsOn_eq, mem_loopBody_killups, h]; simp
  · rw [callsOn_eq, mem_loopBody_shutdown, h]; simp
  · rw [callsOn_eq, mem_loopBody_lowmessage, h]; simp
  · intro x; rw [callsOn_eq, mem_loopBody_warn, h]; simp
  · intro hp
    rw [← laststate_after] at hp
    rw [callsOn_eq, h, loopBody_ok]
    simp [hp]

theorem steady_ok_inert_witness :
    stateOn tiocm 0 (glitch 3) 4 = U_OK ∧ prevOn tiocm 0 (glitch 3) 4 = U_OK
      ∧ countOn tiocm 0 (glitch 3) 4 = 0 ∧ killtimeOn tiocm 0 (glitch 3) 4 = 0
      ∧ callsOn tiocm 0 (glitch 3) 4 = [] :=
  have h := steady_ok_inert tiocm 0 (glitch 3) 4 (by decide)
  ⟨by decide, by decide, h.1, h.2.1, h.2.2.2.2.2.2 (by decide)⟩

/-! ## The counters from tick to tick -/

theorem loopBody_killtime_pos (st : UState) (s : MainStatics) (hst : st ≠ U_OK)
    (hk : 0 < s.killtime) : 0 < (loopBody st s).1.killtime := by
  cases st
  · exact absurd rfl hst
  · rw [loopBody_low]
    simp only [KILL_TIME, POLL_INTERVAL]
    split_ifs <;> omega
  · rw [loopBody_fail]
    simp only [KILL_TIME, POLL_INTERVAL]
    split_ifs <;> omega

theorem killtimeOn_pos_of_ne (t : Tiocm) (l0 : Nat) (ins : Nat → Reading) (n : Nat)
    (h : killtimeOn t l0 ins n ≠ 0) : 0 < killtimeOn t l0 ins n := by
  have hb := runMain_bounds (stateOn t l0 ins) (n + 1)
  rw [← after_ml_eq] at hb
  unfold killtimeOn at *
  omega

theorem countOn_eq (t : Tiocm) (l0 : Nat) (ins : Nat → Reading) (n : Nat) :
    countOn t l0 ins n
      = if stateOn t l0 ins n = U_OK then 0
        else bump (stateOn t l0 ins n) (after t l0 ins n).ml := by
  unfold countOn; rw [after_succ_ml, loopBody_count]

theorem bump_ge (st : UState) (s : MainStatics) : s.count ≤ bump st s := by
  unfold bump
  simp only [POLL_INTERVAL]
  split_ifs <;> omega

/-- C8: after a tick whose debounced state is `U_FAIL` and whose elapsed counter
is at least `SHUTDOWN_TIME - KILL_TIME`, `killtime` is not zero; and once
`killtime` is not zero after a tick, it is not zero after any later tick as long
as no tick in between, that one included, has the state `U_OK`. -/
theorem kill_flag_monotone (t : Tiocm) (l0 : Nat) (ins : Nat → Reading) (n : Nat) :
    (stateOn t l0 ins n = U_FAIL → countOn t l0 ins n ≥ SHUTDOWN_TIME - KILL_TIME →
        killtimeOn t l0 ins n ≠ 0)
      ∧ (∀ m, killtimeOn t l0 ins n ≠ 0 →
          (∀ j, 1 ≤ j → j ≤ m → stateOn t l0 ins (n + j) ≠ U_OK) →
          killtimeOn t l0 ins (n + m) ≠ 0) := by
  constructor
  · intro hs hc
    rw [countOn_eq, hs, if_neg (by simp)] at hc
    unfold killtimeOn
    rw [after_succ_ml, hs, loopBody_fail]
    simp only [KILL_TIME, POLL_INTERVAL, SHUTDOWN_TIME] at *
    split_ifs <;> omega
  · intro m hk hrun
    have : 0 < killtimeOn t l0 ins (n + m) := by
      induction m with
      | zero => exact killtimeOn_pos_of_ne t l0 ins n hk
      | succ m ih =>
        have ih2 := ih (fun j h1 h2 => hrun j h1 (by omega))
        have hs := hrun (m + 1) (by omega) (le_refl _)
        unfold killtimeOn at ih2 ⊢
        rw [← Nat.add_assoc, after_succ_ml]
        exact loopBody_killtime_pos _ _ hs ih2
    omega

theorem kill_flag_monotone_witness :
    killtimeOn tiocm 0 lowThenOk 6 ≠ 0 ∧ killtimeOn tiocm 0 lowThenOk 12 ≠ 0
      ∧ killtimeOn tiocm 0 lowThenOk 13 = 0 :=
  ⟨by decide,
    (kill_flag_monotone tiocm 0 lowThenOk 6).2 6 (by decide)
      (fun j h1 h2 => by interval_cases j <;> decide),
    by decide⟩

/-- C11: on a tick whose debounced state is not `U_OK` the elapsed counter after
the tick is at least its value before the tick, so over any stretch of ticks
without `U_OK` it never goes down; a tick that takes it from a non-zero value to
0 has the state `U_OK`, and every tick with the state `U_OK` leaves it 0. -/
theorem count_not_lowered (t : Tiocm) (l0 : Nat) (ins : Nat → Reading) (n : Nat) :
    (stateOn t l0 ins n ≠ U_OK → (after t l0 ins n).ml.count ≤ countOn t l0 ins n)
      ∧ (∀ m, (∀ j, j < m → stateOn t l0 ins (n + j) ≠ U_OK) →
          (after t l0 ins n).ml.count ≤ (after t l0 ins (n + m)).ml.count)
      ∧ ((after t l0 ins n).ml.count ≠ 0 → countOn t l0 ins n = 0 →
          stateOn t l0 ins n = U_OK)
      ∧ (stateOn t l0 ins n = U_OK → countOn t l0 ins n = 0) := by
  have step : ∀ k, stateOn t l0 ins k ≠ U_OK →
      (after t l0 ins k).ml.count ≤ countOn t l0 ins k := by
    intro k hk
    rw [countOn_eq, if_neg hk]
    exact bump_ge _ _
  refine ⟨step n, ?_, ?_, ?_⟩
  · intro m hrun
    induction m with
    | zero => exact le_refl _
    | succ m ih =>
      have ih2 := ih (fun j hj => hrun j (by omega))
      have := step (n + m) (hrun m (by omega))
      exact le_trans ih2 this
  · intro h1 h2
    by_contra hs
    have := step n hs
    have hb := (runMain_bounds (stateOn t l0 ins) n).2.2
    rw [← after_ml_eq] at hb
    omega
  · intro hs
    rw [countOn_eq, if_pos hs]

theorem count_not_lowered_witness :
    stateOn tiocm 0 failLowFail 15 = U_FAIL ∧ countOn tiocm 0 failLowFail 15 = 9
      ∧ stateOn tiocm 0 failLowFail 16 = U_LOW ∧ countOn tiocm 0 failLowFail 16 = 9
      ∧ stateOn tiocm 0 failLowFail 23 = U_FAIL
      ∧ 9 ≤ countOn tiocm 0 failLowFail 23 :=
  ⟨by decide, by decide, by decide, by decide, by decide,
    le_of_eq_of_le (show (9 : Int) = (after tiocm 0 failLowFail 16).ml.count by decide)
      ((count_not_lowered tiocm 0 failLowFail 16).2.1 8
        (fun j hj => by interval_cases j <;> decide))⟩

theorem shutdown_next (st : UState) (s : MainStatics)
    (h : Call.shutdown ∈ (loopBody st s).2) :
    Call.shutdown ∈ (loopBody st (loopBody st s).1).2 := by
  rw [mem_loopBody_shutdown] at h ⊢
  rcases h with ⟨hs, h0, hk⟩ | ⟨hs, hc⟩
  · left
    subst hs
    rw [loopBody_low]
    refine ⟨rfl, ?_, ?_⟩ <;> simp only [KILL_TIME, POLL_INTERVAL] at * <;> split_ifs <;> omega
  · right
    subst hs
    refine ⟨rfl, ?_⟩
    rw [loopBody_fail]
    simp only [bump, SHUTDOWN_TIME, POLL_INTERVAL, if_true] at *
    omega

/-- C20: when `shutdown()` is called on a tick, it is called again on every
following tick as long as the debounced state stays what it was; when that state
is `U_LOW`, `killtime` is exactly `KILL_TIME` after the tick; and in every
reachable state `0 ≤ killtime ≤ KILL_TIME`. -/
theorem shutdown_not_one_shot (t : Tiocm) (l0 : Nat) (ins : Nat → Reading) (n : Nat) :
    (∀ m, Call.shutdown ∈ callsOn t l0 ins n →
        (∀ j, j ≤ m → stateOn t l0 ins (n + j) = stateOn t l0 ins n) →
        Call.shutdown ∈ callsOn t l0 ins (n + m))
      ∧ (Call.shutdown ∈ callsOn t l0 ins n → stateOn t l0 ins n = U_LOW →
          killtimeOn t l0 ins n = KILL_TIME)
      ∧ 0 ≤ (after t l0 ins n).ml.killtime ∧ (after t l0 ins n).ml.killtime ≤ KILL_TIME := by
  have hb := runMain_bounds (stateOn t l0 ins) n
  rw [← after_ml_eq] at hb
  refine ⟨?_, ?_, hb.1, hb.2.1⟩
  · intro m h hrun
    induction m with
    | zero => exact h
    | succ m ih =>
      have ih2 := ih (fun j hj => hrun j (by omega))
      have e1 := hrun m (by omega)
      have e2 := hrun (m + 1) (le_refl _)
      rw [callsOn_eq] at ih2
      rw [← Nat.add_assoc, callsOn_eq, after_succ_ml]
      rw [show stateOn t l0 ins (n + m + 1) = stateOn t l0 ins (n + m) from e2.trans e1.symm]
      exact shutdown_next _ _ ih2
  · intro h hs
    rw [callsOn_eq, mem_loopBody_shutdown, hs] at h
    unfold killtimeOn
    rw [after_succ_ml, hs, loopBody_low]
    simp only [KILL_TIME, POLL_INTERVAL, reduceCtorEq, false_and, or_false, true_and] at *
    split_ifs <;> omega

theorem shutdown_not_one_shot_witness :
    Call.shutdown ∉ callsOn tiocm 0 allLow 15 ∧ Call.shutdown ∈ callsOn tiocm 0 allLow 16
      ∧ Call.shutdown ∈ callsOn tiocm 0 allLow 20 ∧ killtimeOn tiocm 0 allLow 16 = KILL_TIME :=
  have h := shutdown_not_one_shot tiocm 0 allLow 16
  ⟨by decide, by decide,
    h.1 4 (by decide) (fun j hj => by interval_cases j <;> decide),
    h.2.1 (by decide) (by decide)⟩

/-- C13: `readline()` classifies a word of line flags as `U_OK` when all the
power-good bits are set, as `U_LOW` when neither the power-good bits nor the
battery-good bits are all set, and as `U_FAIL` when the power-good bits are not
all set and the battery-good bits are; two words that agree under both masks get
the same classification, and the classification is what the call records. -/
theorem raw_classification (t : Tiocm) (f : Nat) :
    (f &&& POWER_GOOD_BITS t = POWER_GOOD_BITS t → nextstate t f = U_OK)
      ∧ (f &&& POWER_GOOD_BITS t ≠ POWER_GOOD_BITS t →
          f &&& BATT_GOOD_BITS t ≠ BATT_GOOD_BITS t → nextstate t f = U_LOW)
      ∧ (f &&& POWER_GOOD_BITS t ≠ POWER_GOOD_BITS t →
          f &&& BATT_GOOD_BITS t = BATT_GOOD_BITS t → nextstate t f = U_FAIL)
      ∧ (∀ g, g &&& POWER_GOOD_BITS t = f &&& POWER_GOOD_BITS t →
          g &&& BATT_GOOD_BITS t = f &&& BATT_GOOD_BITS t → nextstate t g = nextstate t f)
      ∧ (∀ s, (readline t f s).lastnextstate = nextstate t f) := by
  refine ⟨?_, ?_, ?_, ?_, fun _ => rfl⟩
  · intro h; simp [nextstate, h]
  · intro h1 h2; simp [nextstate, h1, h2]
  · intro h1 h2; simp [nextstate, h1, h2]
  · intro g h1 h2; simp [nextstate, h1, h2]

theorem raw_classification_witness :
    nextstate tiocm 0x060 = U_OK ∧ nextstate tiocm 0x020 = U_OK
      ∧ nextstate tiocm 0x000 = U_LOW ∧ nextstate tiocm 0x040 = U_FAIL
      ∧ nextstate tiocm 0x046 = nextstate tiocm 0x040 :=
  have h := raw_classification tiocm 0x040
  ⟨(raw_classification tiocm 0x060).1 (by decide),
    (raw_classification tiocm 0x020).1 (by decide),
    (raw_classification tiocm 0x000).2.1 (by decide) (by decide),
    h.2.2.1 (by decide) (by decide),
    h.2.2.2.1 0x046 (by decide) (by decide)⟩

theorem testBit_of_disjoint (a b : Nat) (h : a &&& b = 0) (i : Nat) :
    (a.testBit i && b.testBit i) = false := by
  rw [← Nat.testBit_and, h, Nat.zero_testBit]

/-- C14: with the init mask and the kill mask disjoint, the word that
`setline(kill)` writes has every init bit set, has every kill bit set when
`kill ≠ 0` and every kill bit clear when `kill = 0`, and agrees with the word it
read on every bit outside the two masks; `init()`, `cancel()` and `term()` write
the word of `setline(0)`, whatever word was on the lines. -/
theorem setline_frame (t : Tiocm) (kill : Int) (f : Nat)
    (hdis : INIT_BITS t &&& KILL_BITS t = 0) :
    setline t kill f &&& INIT_BITS t = INIT_BITS t
      ∧ (kill ≠ 0 → setline t kill f &&& KILL_BITS t = KILL_BITS t)
      ∧ (kill = 0 → setline t kill f &&& KILL_BITS t = 0)
      ∧ (KILL_BITS t ≠ 0 → (setline t kill f &&& KILL_BITS t = KILL_BITS t ↔ kill ≠ 0))
      ∧ (∀ i, (INIT_BITS t).testBit i = false → (KILL_BITS t).testBit i = false →
          (setline t kill f).testBit i = f.testBit i)
      ∧ init t f = setline t 0 f ∧ cancel t f = setline t 0 f ∧ term t f = setline t 0 f := by
  have h1 : setline t kill f &&& INIT_BITS t = INIT_BITS t := by
    apply Nat.eq_of_testBit_eq
    intro i
    have hd := testBit_of_disjoint _ _ hdis i
    rw [Nat.testBit_and, setline_testBit]
    split_ifs <;>
      cases h1 : (INIT_BITS t).testBit i <;> cases h2 : (KILL_BITS t).testBit i <;>
      cases h3 : f.testBit i <;> simp_all
  have h2 : kill ≠ 0 → setline t kill f &&& KILL_BITS t = KILL_BITS t := by
    intro hk
    apply Nat.eq_of_testBit_eq
    intro i
    rw [Nat.testBit_and, setline_testBit, if_pos hk]
    cases (KILL_BITS t).testBit i <;> simp
  have h3 : kill = 0 → setline t kill f &&& KILL_BITS t = 0 := by
    intro hk; subst hk; exact setline_zero_land t f
  refine ⟨h1, h2, h3, ?_, ?_, rfl, rfl, rfl⟩
  · intro hne
    constructor
    · intro he hk
      exact hne (he.symm.trans (h3 hk))
    · exact h2
  · intro i hi hk
    rw [setline_testBit, hi, hk]
    split_ifs <;> simp

theorem setline_frame_witness :
    setline tiocm 1 0x060 = 0x066 ∧ setline tiocm 0 0x066 = 0x064
      ∧ term tiocm 0x066 &&& KILL_BITS tiocm = 0
      ∧ term tiocm 0x066 &&& INIT_BITS tiocm = INIT_BITS tiocm :=
  have h := setline_frame tiocm 0 0x066 (by decide)
  ⟨by decide, by decide!, h.2.2.2.2.2.2.2 ▸ h.2.2.1 rfl, h.2.2.2.2.2.2.2 ▸ h.1⟩

/-! ## An unbroken power failure -/

theorem fail_step_small :
    ∀ c : Nat, c < 299 →
      loopBody U_FAIL (failRun (c : Int)) = (failRun ((c : Int) + 1), failCalls ((c : Int) + 1)) := by
  decide!

theorem fail_step_large (c : Int) (hc : 299 ≤ c) :
    loopBody U_FAIL (failRun c) = (failRun (c + 1), failCalls (c + 1)) := by
  rw [loopBody_fail]
  have hb : bump U_FAIL (failRun c) = c + 1 := by simp [bump, failRun, POLL_INTERVAL]
  have e1 : failNextwarn c = 295 := by unfold failNextwarn; split_ifs <;> omega
  have e2 : failNextwarn (c + 1) = 295 := by unfold failNextwarn; split_ifs <;> omega
  have hw : warnBase (failRun c) = 295 := by simp [warnBase, failRun, e1]
  have hk : (failRun c).killtime = 1 := by simp [failRun]; omega
  have e3 : failCalls (c + 1) = [Call.shutdown] := by
    unfold failCalls; split_ifs <;> first | rfl | omega
  have e4 : failRun (c + 1)
      = { count := c + 1, killtime := 1, laststate := U_FAIL, nextwarn := 295 } := by
    simp [failRun, e2]; omega
  rw [hb, hw, hk, e3, e4]
  have h1 : ¬ (c + 1 ≥ SHUTDOWN_TIME - KILL_TIME ∧ (1 : Int) = 0) := by simp
  have h2 : c + 1 ≥ SHUTDOWN_TIME := by simp only [SHUTDOWN_TIME]; omega
  rw [if_neg h1, if_pos h2, if_neg h1, if_pos h2]
  rfl

theorem fail_step (c : Int) (hc : 0 ≤ c) :
    loopBody U_FAIL (failRun c) = (failRun (c + 1), failCalls (c + 1)) := by
  by_cases h : 299 ≤ c
  · exact fail_step_large c h
  · have := fail_step_small c.toNat (by omega)
    rwa [Int.toNat_of_nonneg hc] at this

theorem stateOn_sustained (t : Tiocm) (l0 : Nat) (ins : Nat → Reading) (v : UState)
    (hv : v ≠ U_OK) (h : ∀ n, rawOn t ins n = v) (n : Nat) :
    stateOn t l0 ins n = if n < 6 then U_OK else v := by
  have := debounce_latency t l0 ins 0 n v (fun e => hv e.symm)
    (fun j _ => by rw [Nat.zero_add]; exact h j) n (le_refl _)
  rw [Nat.zero_add] at this
  exact this

theorem ml_before_sustained (t : Tiocm) (l0 : Nat) (ins : Nat → Reading) (v : UState)
    (hv : v ≠ U_OK) (h : ∀ n, rawOn t ins n = v) (n : Nat) (hn : n ≤ 6) :
    (after t l0 ins n).ml = {} := by
  induction n with
  | zero => rfl
  | succ n ih =>
    rw [after_succ_ml, ih (by omega), stateOn_sustained t l0 ins v hv h n, if_pos (by omega)]
    rfl

theorem calls_before_sustained (t : Tiocm) (l0 : Nat) (ins : Nat → Reading) (v : UState)
    (hv : v ≠ U_OK) (h : ∀ n, rawOn t ins n = v) (n : Nat) (hn : n < 6) :
    callsOn t l0 ins n = [] := by
  rw [callsOn_eq, ml_before_sustained t l0 ins v hv h n (by omega),
    stateOn_sustained t l0 ins v hv h n, if_pos hn]
  rfl

/-- With every classification `U_FAIL`, tick `6 + k` leaves the statics
`failRun k` and makes the calls `failCalls k`. -/
theorem fail_run (t : Tiocm) (l0 : Nat) (ins : Nat → Reading)
    (h : ∀ n, rawOn t ins n = U_FAIL) (k : Nat) :
    (after t l0 ins (6 + k + 1)).ml = failRun (k : Int)
      ∧ callsOn t l0 ins (6 + k) = failCalls (k : Int) := by
  have hs : ∀ n, stateOn t l0 ins (6 + n) = U_FAIL := by
    intro n
    rw [stateOn_sustained t l0 ins U_FAIL (by decide) h, if_neg (by omega)]
  induction k with
  | zero =>
    have h6 := ml_before_sustained t l0 ins U_FAIL (by decide) h 6 (le_refl _)
    have e := hs 0
    constructor
    · rw [after_succ_ml, e, h6]; decide
    · rw [callsOn_eq, e, h6]; decide
  | succ k ih =>
    have e := hs (k + 1)
    have st := fail_step (k : Int) (by omega)
    constructor
    · rw [after_succ_ml, e, ← Nat.add_assoc, ih.1, st]; push_cast; rfl
    · rw [callsOn_eq, e, ← Nat.add_assoc, ih.1, st]; push_cast; rfl

theorem fail_calls_on (t : Tiocm) (l0 : Nat) (ins : Nat → Reading)
    (h : ∀ n, rawOn t ins n = U_FAIL) (n : Nat) :
    callsOn t l0 ins n = if n < 6 then [] else failCalls ((n : Int) - 6) := by
  by_cases hn : n < 6
  · rw [if_pos hn]; exact calls_before_sustained t l0 ins U_FAIL (by decide) h n hn
  · rw [if_neg hn]
    obtain ⟨k, rfl⟩ : ∃ k, n = 6 + k := ⟨n - 6, by omega⟩
    rw [(fail_run t l0 ins h k).2]
    congr 1
    push_cast
    omega

theorem fail_ml_on (t : Tiocm) (l0 : Nat) (ins : Nat → Reading)
    (h : ∀ n, rawOn t ins n = U_FAIL) (n : Nat) (hn : 6 ≤ n) :
    (after t l0 ins (n + 1)).ml = failRun ((n : Int) - 6) := by
  obtain ⟨k, rfl⟩ : ∃ k, n = 6 + k := ⟨n - 6, by omega⟩
  rw [(fail_run t l0 ins h k).1]
  congr 1
  push_cast
  omega

theorem mem_failCalls_killups (c : Int) : Call.killups ∈ failCalls c ↔ c = 290 := by
  unfold failCalls
  split_ifs <;> simp <;> omega

theorem mem_failCalls_shutdown (c : Int) : Call.shutdown ∈ failCalls c ↔ c ≥ 300 := by
  unfold failCalls
  split_ifs <;> simp <;> omega

theorem mem_failCalls_warn (c x : Int) :
    Call.warn x ∈ failCalls c
      ↔ (c = 0 ∧ x = 300) ∨ (c = 150 ∧ x = 150) ∨ (c = 225 ∧ x = 75)
        ∨ (c = 262 ∧ x = 38) ∨ (c = 281 ∧ x = 19) ∨ (c = 290 ∧ x = 10) := by
  unfold failCalls
  split_ifs <;> simp <;> omega

theorem count_warn_failCalls (c x : Int) : (failCalls c).count (Call.warn x) ≤ 1 := by
  unfold failCalls
  split_ifs
  all_goals first
    | exact (List.count_le_length _ _).trans (by decide)
    | (rw [List.count_cons_of_ne (by simp)]
       exact (List.count_le_length _ _).trans (by decide))

theorem fail_count_on (t : Tiocm) (l0 : Nat) (ins : Nat → Reading)
    (h : ∀ n, rawOn t ins n = U_FAIL) (n : Nat) (hn : 6 ≤ n) :
    countOn t l0 ins n = (n : Int) - 6 := by
  have := fail_ml_on t l0 ins h n hn
  unfold countOn
  rw [this, failRun]

theorem fail_nextwarn_on (t : Tiocm) (l0 : Nat) (ins : Nat → Reading)
    (h : ∀ n, rawOn t ins n = U_FAIL) (n : Nat) (hn : 296 ≤ n) :
    nextwarnOn t l0 ins n = 295 := by
  have := fail_ml_on t l0 ins h n (by omega)
  unfold nextwarnOn
  rw [this, failRun]
  simp only [failNextwarn]
  split_ifs <;> omega

/-- C4: with every reading classified `U_FAIL` from the initial state,
`killups()` is called on tick 296 only, the tick on which the elapsed counter is
`SHUTDOWN_TIME - KILL_TIME = 290`, and once there; `shutdown()` is called on
tick 306, the tick on which the counter is `SHUTDOWN_TIME = 300`, on every later
tick, and on no earlier one. -/
theorem sustained_failure_schedule (t : Tiocm) (l0 : Nat) (ins : Nat → Reading)
    (h : ∀ n, rawOn t ins n = U_FAIL) :
    countOn t l0 ins 296 = SHUTDOWN_TIME - KILL_TIME
      ∧ countOn t l0 ins 306 = SHUTDOWN_TIME
      ∧ (∀ n, Call.killups ∈ callsOn t l0 ins n ↔ n = 296)
      ∧ (callsOn t l0 ins 296).count Call.killups = 1
      ∧ (∀ n, Call.shutdown ∈ callsOn t l0 ins n ↔ 306 ≤ n) := by
  refine ⟨?_, ?_, ?_, ?_, ?_⟩
  · rw [fail_count_on t l0 ins h 296 (by omega)]; rfl
  · rw [fail_count_on t l0 ins h 306 (by omega)]; rfl
  · intro n
    rw [fail_calls_on t l0 ins h n]
    split_ifs with hn
    · simp; omega
    · rw [mem_failCalls_killups]; omega
  · rw [fail_calls_on t l0 ins h 296]; decide
  · intro n
    rw [fail_calls_on t l0 ins h n]
    split_ifs with hn
    · simp; omega
    · rw [mem_failCalls_shutdown]; omega

theorem sustained_failure_schedule_witness :
    callsOn tiocm 0 allFail 296 = [Call.killups, Call.warn 10]
      ∧ Call.killups ∉ callsOn tiocm 0 allFail 297
      ∧ Call.shutdown ∉ callsOn tiocm 0 allFail 305
      ∧ Call.shutdown ∈ callsOn tiocm 0 allFail 306 :=
  have h := sustained_failure_schedule tiocm 0 allFail
    (fun _ => show nextstate tiocm rdFail.flags = U_FAIL by decide)
  ⟨by decide!, fun hm => absurd ((h.2.2.1 297).1 hm) (by decide),
    fun hm => absurd ((h.2.2.2.2 305).1 hm) (by decide), (h.2.2.2.2 306).2 (by decide)⟩

/-- C5, as the code has it: with every reading classified `U_FAIL` from the
initial state, no `warn()` is called before tick 6, and tick 6, the first tick
whose debounced state is `U_FAIL`, calls `warn(300)` with the elapsed counter
at 0. -/
theorem first_warning (t : Tiocm) (l0 : Nat) (ins : Nat → Reading)
    (h : ∀ n, rawOn t ins n = U_FAIL) :
    (∀ n, n < 6 → callsOn t l0 ins n = [])
      ∧ stateOn t l0 ins 6 = U_FAIL
      ∧ callsOn t l0 ins 6 = [Call.warn SHUTDOWN_TIME]
      ∧ countOn t l0 ins 6 = 0 := by
  refine ⟨?_, ?_, ?_, ?_⟩
  · intro n hn; rw [fail_calls_on t l0 ins h n, if_pos hn]
  · rw [stateOn_sustained t l0 ins U_FAIL (by decide) h]; rfl
  · rw [fail_calls_on t l0 ins h 6]; decide
  · rw [fail_count_on t l0 ins h 6 (by omega)]; rfl

theorem first_warning_witness :
    callsOn tiocm 0 allFail 5 = [] ∧ callsOn tiocm 0 allFail 6 = [Call.warn 300] :=
  have h := first_warning tiocm 0 allFail
    (fun _ => show nextstate tiocm rdFail.flags = U_FAIL by decide)
  ⟨h.1 5 (by decide), h.2.2.1⟩

/-- C5, counterexample: with every reading `rdFail`, the first `warn()` is
`warn(300)` on tick 6 with the elapsed counter at 0, and tick 12, on which the
counter is 6, calls nothing. -/
theorem first_warning_not_at_six :
    (∀ n, n < 6 → callsOn tiocm 0 allFail n = [])
      ∧ callsOn tiocm 0 allFail 6 = [Call.warn 300] ∧ countOn tiocm 0 allFail 6 = 0
      ∧ countOn tiocm 0 allFail 12 = 6 ∧ callsOn tiocm 0 allFail 12 = []
      ∧ (∀ n, n ≤ 12 → Call.warn 294 ∉ callsOn tiocm 0 allFail n) := by
  decide

/-- C19: with every reading classified `U_FAIL` from the initial state, `warn()`
is called on the ticks 6, 156, 231, 268, 287 and 296 only, where the elapsed
counter is 0, 150, 225, 262, 281 and 290, with the arguments 300, 150, 75, 38,
19 and 10, once each; from tick 296 on `nextwarn` is 295. -/
theorem warning_schedule (t : Tiocm) (l0 : Nat) (ins : Nat → Reading)
    (h : ∀ n, rawOn t ins n = U_FAIL) :
    (∀ n x, Call.warn x ∈ callsOn t l0 ins n
        ↔ (n = 6 ∧ x = 300) ∨ (n = 156 ∧ x = 150) ∨ (n = 231 ∧ x = 75)
          ∨ (n = 268 ∧ x = 38) ∨ (n = 287 ∧ x = 19) ∨ (n = 296 ∧ x = 10))
      ∧ (∀ n x, (callsOn t l0 ins n).count (Call.warn x) ≤ 1)
      ∧ (∀ n, 6 ≤ n → countOn t l0 ins n = (n : Int) - 6)
      ∧ (∀ n, 296 ≤ n → nextwarnOn t l0 ins n = 295) := by
  refine ⟨?_, ?_, ?_, ?_⟩
  · intro n x
    rw [fail_calls_on t l0 ins h n]
    split_ifs with hn
    · simp; omega
    · rw [mem_failCalls_warn]; omega
  · intro n x
    rw [fail_calls_on t l0 ins h n]
    split_ifs
    · exact Nat.zero_le _
    · exact count_warn_failCalls _ x
  · exact fail_count_on t l0 ins h
  · exact fail_nextwarn_on t l0 ins h

theorem warning_schedule_witness :
    Call.warn 75 ∈ callsOn tiocm 0 allFail 231 ∧ countOn tiocm 0 allFail 231 = 225
      ∧ Call.warn 10 ∈ callsOn tiocm 0 allFail 296
      ∧ nextwarnOn tiocm 0 allFail 300 = 295 :=
  have h := warning_schedule tiocm 0 allFail
    (fun _ => show nextstate tiocm rdFail.flags = U_FAIL by decide)
  ⟨(h.1 231 75).2 (by decide), h.2.2.1 231 (by decide),
    (h.1 296 10).2 (by decide), h.2.2.2 300 (by decide)⟩

/-! ## An unbroken low-battery state -/

theorem low_step (c : Int) (hc : 0 ≤ c) :
    loopBody U_LOW (lowRun c) = (lowRun (c + 1), lowCalls (c + 1)) := by
  rw [loopBody_low]
  have hb : bump U_LOW (lowRun c) = c + 1 := by simp [bump, lowRun, POLL_INTERVAL]
  have hl : (lowRun c).laststate = U_LOW := rfl
  have hk : (lowRun c).killtime = min (c + 1) 10 := rfl
  have hw : (lowRun c).nextwarn = 0 := rfl
  rw [hb, hl, hk, hw]
  simp only [lowRun, lowCalls, KILL_TIME, POLL_INTERVAL, Prod.mk.injEq, MainStatics.mk.injEq,
    true_and, ne_eq, not_true_eq_false, if_false, List.nil_append, and_true]
  constructor
  · split_ifs <;> omega
  · split_ifs <;> first | rfl | omega

theorem low_run (t : Tiocm) (l0 : Nat) (ins : Nat → Reading)
    (h : ∀ n, rawOn t ins n = U_LOW) (k : Nat) :
    (after t l0 ins (6 + k + 1)).ml = lowRun (k : Int)
      ∧ callsOn t l0 ins (6 + k) = lowCalls (k : Int) := by
  have hs : ∀ n, stateOn t l0 ins (6 + n) = U_LOW := by
    intro n
    rw [stateOn_sustained t l0 ins U_LOW (by decide) h, if_neg (by omega)]
  induction k with
  | zero =>
    have h6 := ml_before_sustained t l0 ins U_LOW (by decide) h 6 (le_refl _)
    have e := hs 0
    constructor
    · rw [after_succ_ml, e, h6]; decide
    · rw [callsOn_eq, e, h6]; decide
  | succ k ih =>
    have e := hs (k + 1)
    have st := low_step (k : Int) (by omega)
    constructor
    · rw [after_succ_ml, e, ← Nat.add_assoc, ih.1, st]; push_cast; rfl
    · rw [callsOn_eq, e, ← Nat.add_assoc, ih.1, st]; push_cast; rfl

theorem low_calls_on (t : Tiocm) (l0 : Nat) (ins : Nat → Reading)
    (h : ∀ n, rawOn t ins n = U_LOW) (n : Nat) :
    callsOn t l0 ins n = if n < 6 then [] else lowCalls ((n : Int) - 6) := by
  by_cases hn : n < 6
  · rw [if_pos hn]; exact calls_before_sustained t l0 ins U_LOW (by decide) h n hn
  · rw [if_neg hn]
    obtain ⟨k, rfl⟩ : ∃ k, n = 6 + k := ⟨n - 6, by omega⟩
    rw [(low_run t l0 ins h k).2]
    congr 1
    push_cast
    omega

theorem mem_lowCalls (c : Int) :
    (Call.lowmessage ∈ lowCalls c ↔ c = 0) ∧ (Call.killups ∈ lowCalls c ↔ c = 0)
      ∧ (Call.shutdown ∈ lowCalls c ↔ c ≥ 10) := by
  unfold lowCalls
  refine ⟨?_, ?_, ?_⟩ <;> split_ifs <;> simp <;> omega

/-- C6: with every reading classified `U_LOW` from the initial state,
`lowmessage()` and `killups()` are called on tick 6, the first tick whose
debounced state is `U_LOW`, and on no other tick; `shutdown()` is called on the
ticks from 16 on and on no earlier one, tick 16 being the first that finds
`killtime` at `KILL_TIME`; and whether a tick in `U_LOW` calls `shutdown()` is
the same for any two states of the loop with the same `killtime`. -/
theorem sustained_low_battery (t : Tiocm) (l0 : Nat) (ins : Nat → Reading)
    (h : ∀ n, rawOn t ins n = U_LOW) :
    (∀ n, stateOn t l0 ins n = U_LOW ↔ 6 ≤ n)
      ∧ (∀ n, Call.lowmessage ∈ callsOn t l0 ins n ↔ n = 6)
      ∧ (∀ n, Call.killups ∈ callsOn t l0 ins n ↔ n = 6)
      ∧ (∀ n, Call.shutdown ∈ callsOn t l0 ins n ↔ 16 ≤ n)
      ∧ (∀ n, 6 ≤ n → n < 16 → killtimeOn t l0 ins n = (n : Int) - 5)
      ∧ (after t l0 ins 16).ml.killtime = KILL_TIME
      ∧ (∀ s s' : MainStatics, s.killtime = s'.killtime →
          (Call.shutdown ∈ (loopBody U_LOW s).2 ↔ Call.shutdown ∈ (loopBody U_LOW s').2)) := by
  have hk : ∀ n, 6 ≤ n → killtimeOn t l0 ins n = min ((n : Int) - 6 + 1) 10 := by
    intro n hn
    obtain ⟨k, rfl⟩ : ∃ k, n = 6 + k := ⟨n - 6, by omega⟩
    unfold killtimeOn
    rw [(low_run t l0 ins h k).1, lowRun]
    push_cast
    congr 1
    omega
  refine ⟨?_, ?_, ?_, ?_, ?_, ?_, ?_⟩
  · intro n
    rw [stateOn_sustained t l0 ins U_LOW (by decide) h]
    split_ifs with hn
    · simp; omega
    · simp; omega
  · intro n
    rw [low_calls_on t l0 ins h n]
    split_ifs with hn
    · simp; omega
    · rw [(mem_lowCalls _).1]; omega
  · intro n
    rw [low_calls_on t l0 ins h n]
    split_ifs with hn
    · simp; omega
    · rw [(mem_lowCalls _).2.1]; omega
  · intro n
    rw [low_calls_on t l0 ins h n]
    split_ifs with hn
    · simp; omega
    · rw [(mem_lowCalls _).2.2]; omega
  · intro n h1 h2
    rw [hk n h1]
    omega
  · have := hk 15 (by omega)
    unfold killtimeOn at this
    rw [this]
    rfl
  · intro s s' e
    rw [mem_loopBody_shutdown, mem_loopBody_shutdown, e]
    simp

theorem sustained_low_battery_witness :
    callsOn tiocm 0 allLow 6 = [Call.lowmessage, Call.killups]
      ∧ Call.shutdown ∉ callsOn tiocm 0 allLow 15
      ∧ Call.shutdown ∈ callsOn tiocm 0 allLow 16 :=
  have h := sustained_low_battery tiocm 0 allLow
    (fun _ => show nextstate tiocm rdLow.flags = U_LOW by decide)
  ⟨by decide, fun hm => absurd ((h.2.2.2.1 15).1 hm) (by decide),
    (h.2.2.2.1 16).2 (by decide)⟩

/-! ## Warnings -/

theorem loopBody_fail_nextwarn (s : MainStatics) :
    (loopBody U_FAIL s).1.nextwarn
      = if bump U_FAIL s ≥ SHUTDOWN_TIME then warnBase s
        else if bump U_FAIL s ≥ warnBase s ∧ SHUTDOWN_TIME - bump U_FAIL s ≥ 10
        then warnBase s + (SHUTDOWN_TIME - bump U_FAIL s) / 2 else warnBase s := by
  rw [loopBody_fail]

theorem nextwarn_mono_fail (s : MainStatics) :
    warnBase s ≤ (loopBody U_FAIL s).1.nextwarn := by
  rw [loopBody_fail_nextwarn]
  simp only [SHUTDOWN_TIME]
  split_ifs <;> omega

theorem warnBase_of_fail (s : MainStatics) (h : s.laststate = U_FAIL) :
    warnBase s = s.nextwarn := by
  simp [warnBase, h]

/-- Within a run of `U_FAIL` ticks the threshold never goes down. -/
theorem nextwarnOn_mono_run (t : Tiocm) (l0 : Nat) (ins : Nat → Reading) (n m : Nat)
    (hrun : ∀ j, j ≤ m → stateOn t l0 ins (n + j) = U_FAIL) :
    nextwarnOn t l0 ins n ≤ nextwarnOn t l0 ins (n + m) := by
  induction m with
  | zero => exact le_refl _
  | succ m ih =>
    have ih2 := ih (fun j hj => hrun j (by omega))
    have hl : (after t l0 ins (n + m + 1)).ml.laststate = U_FAIL := by
      rw [laststate_after]; exact hrun m (by omega)
    have hmono := nextwarn_mono_fail (after t l0 ins (n + m + 1)).ml
    rw [warnBase_of_fail _ hl] at hmono
    have e : stateOn t l0 ins (n + m + 1) = U_FAIL := hrun (m + 1) (le_refl _)
    have e2 : nextwarnOn t l0 ins (n + (m + 1))
        = (loopBody U_FAIL (after t l0 ins (n + m + 1)).ml).1.nextwarn := by
      show (after t l0 ins (n + m + 1 + 1)).ml.nextwarn = _
      rw [after_succ_ml, e]
    rw [e2]
    exact le_trans ih2 hmono

/-- C9: on a tick whose debounced state is `U_FAIL`, a call `warn(x)` has
`x = SHUTDOWN_TIME - count ≥ 10` and leaves `nextwarn` at the threshold the tick
compared `count` with plus `x / 2 ≥ 5`; no `warn()` is called when
`SHUTDOWN_TIME - count < 10`; `shutdown()` is called when
`count ≥ SHUTDOWN_TIME`, and `killups()` when `count ≥ SHUTDOWN_TIME - KILL_TIME`
with `killtime` still 0; and over the ticks of a run of `U_FAIL` the thresholds
at which warnings are given go strictly up. -/
theorem warning_back_off (t : Tiocm) (l0 : Nat) (ins : Nat → Reading) (n : Nat)
    (hs : stateOn t l0 ins n = U_FAIL) :
    (∀ x, Call.warn x ∈ callsOn t l0 ins n →
        x = SHUTDOWN_TIME - countOn t l0 ins n ∧ x ≥ 10 ∧ x / 2 ≥ 5
          ∧ countOn t l0 ins n ≥ warnBase (after t l0 ins n).ml
          ∧ nextwarnOn t l0 ins n = warnBase (after t l0 ins n).ml + x / 2)
      ∧ (SHUTDOWN_TIME - countOn t l0 ins n < 10 → ∀ x, Call.warn x ∉ callsOn t l0 ins n)
      ∧ (countOn t l0 ins n ≥ SHUTDOWN_TIME → Call.shutdown ∈ callsOn t l0 ins n)
      ∧ (countOn t l0 ins n ≥ SHUTDOWN_TIME - KILL_TIME →
          (after t l0 ins n).ml.killtime = 0 → Call.killups ∈ callsOn t l0 ins n)
      ∧ (∀ m x y, 0 < m → (∀ j, j ≤ m → stateOn t l0 ins (n + j) = U_FAIL) →
          Call.warn x ∈ callsOn t l0 ins n → Call.warn y ∈ callsOn t l0 ins (n + m) →
          warnBase (after t l0 ins n).ml < warnBase (after t l0 ins (n + m)).ml) := by
  have hc : countOn t l0 ins n = bump U_FAIL (after t l0 ins n).ml := by
    rw [countOn_eq, hs, if_neg (by simp)]
  have hw : ∀ x, Call.warn x ∈ callsOn t l0 ins n →
      x = SHUTDOWN_TIME - countOn t l0 ins n ∧ x ≥ 10 ∧ x / 2 ≥ 5
        ∧ countOn t l0 ins n ≥ warnBase (after t l0 ins n).ml
        ∧ nextwarnOn t l0 ins n = warnBase (after t l0 ins n).ml + x / 2 := by
    intro x hx
    rw [callsOn_eq, hs, mem_loopBody_warn] at hx
    obtain ⟨_, h1, h2, h3, h4⟩ := hx
    rw [← hc] at h1 h2 h3 h4
    refine ⟨h4, by omega, by omega, h2, ?_⟩
    unfold nextwarnOn
    rw [after_succ_ml, hs, loopBody_fail_nextwarn, ← hc, if_neg h1, if_pos ⟨h2, h3⟩, h4]
  refine ⟨hw, ?_, ?_, ?_, ?_⟩
  · intro hlt x hx
    have := (hw x hx).1
    have := (hw x hx).2.1
    omega
  · intro hge
    rw [callsOn_eq, hs, mem_loopBody_shutdown, ← hc]
    exact Or.inr ⟨rfl, hge⟩
  · intro hge hk
    rw [callsOn_eq, hs, mem_loopBody_killups, ← hc]
    exact Or.inr ⟨rfl, hge, hk⟩
  · intro m x y hm hrun hx _
    obtain ⟨p, rfl⟩ : ∃ p, m = p + 1 := ⟨m - 1, by omega⟩
    have h1 := (hw x hx).2.2.2.2
    have h2 := (hw x hx).2.2.1
    have hmono := nextwarnOn_mono_run t l0 ins n p (fun j hj => hrun j (by omega))
    have hl : (after t l0 ins (n + (p + 1))).ml.laststate = U_FAIL := by
      rw [laststate_after]; exact hrun p (by omega)
    rw [warnBase_of_fail _ hl]
    have e : (after t l0 ins (n + (p + 1))).ml.nextwarn = nextwarnOn t l0 ins (n + p) := rfl
    rw [e]
    omega

theorem warning_back_off_witness :
    Call.warn 300 ∈ callsOn tiocm 0 allFail 6 ∧ nextwarnOn tiocm 0 allFail 6 = 0 + 300 / 2
      ∧ Call.shutdown ∉ callsOn tiocm 0 allFail 6 :=
  have h := warning_back_off tiocm 0 allFail 6 (by decide)
  ⟨by decide, ((h.1 300 (by decide)).2.2.2.2).trans (by decide), by decide⟩

theorem fail_tick_from_fail (s : MainStatics) (k : Int) (hl : s.laststate = U_FAIL)
    (hc : s.count = k) (hinv : s.count < s.nextwarn ∨ s.count ≥ 291) :
    (loopBody U_FAIL s).1.count = k + 1
      ∧ ((loopBody U_FAIL s).1.count < (loopBody U_FAIL s).1.nextwarn
          ∨ (loopBody U_FAIL s).1.count ≥ 291)
      ∧ s.nextwarn ≤ (loopBody U_FAIL s).1.nextwarn
      ∧ (∀ x, Call.warn x ∈ (loopBody U_FAIL s).2 →
          k + 1 + 5 ≤ (loopBody U_FAIL s).1.nextwarn ∧ s.nextwarn ≤ k + 1) := by
  have hb : bump U_FAIL s = k + 1 := by simp [bump, hl, hc, POLL_INTERVAL]
  have hw : warnBase s = s.nextwarn := warnBase_of_fail s hl
  have hn := loopBody_fail_nextwarn s
  have hcnt : (loopBody U_FAIL s).1.count = k + 1 := by rw [loopBody_count, hb]; rfl
  rw [hb, hw] at hn
  refine ⟨hcnt, ?_, ?_, ?_⟩
  · rw [hcnt, hn]
    simp only [SHUTDOWN_TIME]
    split_ifs <;> omega
  · rw [hn]
    simp only [SHUTDOWN_TIME]
    split_ifs <;> omega
  · intro x hx
    rw [mem_loopBody_warn, hb, hw] at hx
    obtain ⟨_, h1, h2, h3, _⟩ := hx
    rw [hn, if_neg h1, if_pos ⟨h2, h3⟩]
    simp only [SHUTDOWN_TIME] at *
    omega

theorem fail_tick_from_ok (s : MainStatics) (hl : s.laststate = U_OK) (hc : s.count = 0) :
    (loopBody U_FAIL s).1.count = 0 ∧ (loopBody U_FAIL s).1.nextwarn = 150 := by
  have hb : bump U_FAIL s = 0 := by simp [bump, hl, hc]
  have hw : warnBase s = 0 := by simp [warnBase, hl]
  have hn := loopBody_fail_nextwarn s
  rw [hb, hw] at hn
  refine ⟨by rw [loopBody_count, hb]; rfl, ?_⟩
  rw [hn]
  simp [SHUTDOWN_TIME]

/-- Along a run of `U_FAIL` ticks entered from `U_OK` on tick `e`: the elapsed
counter on tick `e + k` is `k`, it is below `nextwarn` until it passes 290, and a
warning on tick `e + a` leaves `nextwarn` at `a + 5` or more from then on. -/
theorem fail_run_from_ok (t : Tiocm) (l0 : Nat) (ins : Nat → Reading) (e b : Nat)
    (he : prevOn t l0 ins e = U_OK)
    (hrun : ∀ j, j ≤ b → stateOn t l0 ins (e + j) = U_FAIL) :
    ∀ k, k ≤ b →
      countOn t l0 ins (e + k) = (k : Int)
        ∧ (countOn t l0 ins (e + k) < nextwarnOn t l0 ins (e + k)
            ∨ countOn t l0 ins (e + k) ≥ 291)
        ∧ (∀ a, a ≤ k → (∃ x, Call.warn x ∈ callsOn t l0 ins (e + a)) →
            (a : Int) + 5 ≤ nextwarnOn t l0 ins (e + k)) := by
  intro k
  induction k with
  | zero =>
    intro _
    have hl : (after t l0 ins e).ml.laststate = U_OK := by rw [laststate_after]; exact he
    have hc : (after t l0 ins e).ml.count = 0 := by
      rw [after_ml_eq]
      exact (runMain_after_ok _ e (by rw [← prevOn_eq_prevSt]; exact he)).2
    have h0 := fail_tick_from_ok _ hl hc
    have e0 : stateOn t l0 ins e = U_FAIL := hrun 0 (by omega)
    unfold countOn nextwarnOn
    rw [after_succ_ml, e0, h0.1, h0.2]
    refine ⟨rfl, by omega, ?_⟩
    intro a ha _
    have : a = 0 := by omega
    subst this
    norm_num
  | succ k ih =>
    intro hk
    obtain ⟨h1, h2, h3⟩ := ih (by omega)
    have hl : (after t l0 ins (e + k + 1)).ml.laststate = U_FAIL := by
      rw [laststate_after]; exact hrun k (by omega)
    have st := fail_tick_from_fail (after t l0 ins (e + k + 1)).ml (k : Int) hl h1 h2
    have e1 := hrun (k + 1) hk
    have em : (after t l0 ins (e + (k + 1) + 1)).ml
        = (loopBody U_FAIL (after t l0 ins (e + k + 1)).ml).1 := by
      rw [after_succ_ml, e1]; rfl
    have ec : callsOn t l0 ins (e + (k + 1))
        = (loopBody U_FAIL (after t l0 ins (e + k + 1)).ml).2 := by
      rw [callsOn_eq, e1]; rfl
    unfold countOn nextwarnOn at *
    rw [em]
    refine ⟨by rw [st.1]; push_cast; rfl, st.2.1, ?_⟩
    intro a ha hx
    by_cases hak : a ≤ k
    · exact le_trans (h3 a hak hx) st.2.2.1
    · have : a = k + 1 := by omega
      subst this
      obtain ⟨x, hx⟩ := hx
      rw [ec] at hx
      have := (st.2.2.2 x hx).1
      push_cast
      omega

/-- C10, as the code has it: within a run of ticks whose debounced state is
`U_FAIL` and which was entered from `U_OK`, two ticks that both call `warn()`
are at least 5 ticks apart. -/
theorem warning_rate_limit_from_ok (t : Tiocm) (l0 : Nat) (ins : Nat → Reading)
    (e a b : Nat) (he : prevOn t l0 ins e = U_OK)
    (hrun : ∀ j, j ≤ b → stateOn t l0 ins (e + j) = U_FAIL) (hab : a < b)
    (ha : ∃ x, Call.warn x ∈ callsOn t l0 ins (e + a))
    (hb : ∃ y, Call.warn y ∈ callsOn t l0 ins (e + b)) :
    a + 5 ≤ b := by
  obtain ⟨p, rfl⟩ : ∃ p, b = p + 1 := ⟨b - 1, by omega⟩
  obtain ⟨h1, h2, h3⟩ := fail_run_from_ok t l0 ins e (p + 1) he hrun p (by omega)
  have h5 := h3 a (by omega) ha
  have hl : (after t l0 ins (e + p + 1)).ml.laststate = U_FAIL := by
    rw [laststate_after]; exact hrun p (by omega)
  have st := fail_tick_from_fail (after t l0 ins (e + p + 1)).ml (p : Int) hl h1 h2
  obtain ⟨y, hy⟩ := hb
  have e1 := hrun (p + 1) (le_refl _)
  have ec : callsOn t l0 ins (e + (p + 1))
      = (loopBody U_FAIL (after t l0 ins (e + p + 1)).ml).2 := by
    rw [callsOn_eq, e1]; rfl
  rw [ec] at hy
  have h6 := (st.2.2.2 y hy).2
  unfold nextwarnOn at h5
  omega

theorem warning_rate_limit_from_ok_witness :
    prevOn tiocm 0 allFail 6 = U_OK
      ∧ Call.warn 19 ∈ callsOn tiocm 0 allFail 287
      ∧ Call.warn 10 ∈ callsOn tiocm 0 allFail 296 ∧ 281 + 5 ≤ 290 :=
  have hf : ∀ n, rawOn tiocm allFail n = U_FAIL :=
    fun _ => show nextstate tiocm rdFail.flags = U_FAIL by decide
  have h19 : Call.warn 19 ∈ callsOn tiocm 0 allFail (6 + 281) := by
    rw [fail_calls_on tiocm 0 allFail hf]; decide
  have h10 : Call.warn 10 ∈ callsOn tiocm 0 allFail (6 + 290) := by
    rw [fail_calls_on tiocm 0 allFail hf]; decide
  ⟨by decide, h19, h10,
    warning_rate_limit_from_ok tiocm 0 allFail 6 281 290 (by decide)
      (fun j _ => by
        rw [stateOn_sustained tiocm 0 allFail U_FAIL (by decide) hf, if_neg (by omega)])
      (by decide) ⟨19, h19⟩ ⟨10, h10⟩⟩

/-- C10, counterexample: with power failed for 106 ticks, then battery low for
7 ticks, then power failed, the debounced state is `U_LOW` on tick 118 and
`U_FAIL` from tick 119, and both tick 119 and tick 120 call `warn()`. -/
theorem warnings_on_successive_ticks :
    stateOn tiocm 0 failLowFailLong 118 = U_LOW
      ∧ countOn tiocm 0 failLowFailLong 118 = 111
      ∧ stateOn tiocm 0 failLowFailLong 119 = U_FAIL
      ∧ callsOn tiocm 0 failLowFailLong 119 = [Call.warn 189]
      ∧ stateOn tiocm 0 failLowFailLong 120 = U_FAIL
      ∧ callsOn tiocm 0 failLowFailLong 120 = [Call.warn 188] := by
  decide!

/-! ## The elapsed counter over a stretch without `U_OK` -/

theorem repeats_le (sts : Nat → UState) (e k : Nat) : repeats sts e k ≤ k := by
  induction k with
  | zero => exact le_refl _
  | succ k ih =>
    unfold repeats
    split_ifs <;> omega

theorem repeats_of_const (sts : Nat → UState) (e k : Nat)
    (h : ∀ j, j < k → sts (e + j + 1) = sts (e + j)) : repeats sts e k = k := by
  induction k with
  | zero => rfl
  | succ k ih =>
    unfold repeats
    rw [ih (fun j hj => h j (by omega)), if_pos (h k (by omega))]

/-- C12, as the code has it: on a stretch of ticks without `U_OK` that begins on
tick `e`, the elapsed counter after tick `e + k` is `POLL_INTERVAL` times the
number of ticks after `e`, up to `e + k`, whose debounced state equals that of
the tick before; this is at most `k`, and it is `k` when the state never changed
on the stretch. -/
theorem count_tracks_repeats (t : Tiocm) (l0 : Nat) (ins : Nat → Reading) (e k : Nat)
    (he : prevOn t l0 ins e = U_OK)
    (hrun : ∀ j, j ≤ k → stateOn t l0 ins (e + j) ≠ U_OK) :
    countOn t l0 ins (e + k) = POLL_INTERVAL * (repeats (stateOn t l0 ins) e k : Int)
      ∧ repeats (stateOn t l0 ins) e k ≤ k
      ∧ ((∀ j, j < k → stateOn t l0 ins (e + j + 1) = stateOn t l0 ins (e + j)) →
          countOn t l0 ins (e + k) = POLL_INTERVAL * (k : Int)) := by
  have main : countOn t l0 ins (e + k)
      = POLL_INTERVAL * (repeats (stateOn t l0 ins) e k : Int) := by
    induction k with
    | zero =>
      have hs : stateOn t l0 ins e ≠ U_OK := hrun 0 (by omega)
      have hl : (after t l0 ins e).ml.laststate = U_OK := by rw [laststate_after]; exact he
      have hc : (after t l0 ins e).ml.count = 0 := by
        rw [after_ml_eq]
        exact (runMain_after_ok _ e (by rw [← prevOn_eq_prevSt]; exact he)).2
      show countOn t l0 ins e = _
      rw [countOn_eq, if_neg hs]
      simp [bump, hl, hs, hc, repeats]
    | succ k ih =>
      have ih2 := ih (fun j hj => hrun j (by omega))
      have hs : stateOn t l0 ins (e + k + 1) ≠ U_OK := hrun (k + 1) (le_refl _)
      have hl : (after t l0 ins (e + k + 1)).ml.laststate = stateOn t l0 ins (e + k) := by
        rw [laststate_after]; rfl
      have hc : (after t l0 ins (e + k + 1)).ml.count = countOn t l0 ins (e + k) := rfl
      show countOn t l0 ins (e + k + 1) = _
      rw [countOn_eq, if_neg hs]
      unfold bump repeats
      rw [hl, hc, ih2]
      simp only [POLL_INTERVAL]
      split_ifs <;> push_cast <;> omega
  refine ⟨main, repeats_le _ _ _, ?_⟩
  intro hconst
  rw [main, repeats_of_const _ _ _ hconst]

theorem count_tracks_repeats_witness :
    prevOn tiocm 0 failLowFail 6 = U_OK
      ∧ repeats (stateOn tiocm 0 failLowFail) 6 10 = 9
      ∧ countOn tiocm 0 failLowFail 16 = POLL_INTERVAL * 9 :=
  have h := count_tracks_repeats tiocm 0 failLowFail 6 10 (by decide)
    (fun j hj => by interval_cases j <;> decide)
  ⟨by decide, by decide, h.1.trans (by decide)⟩

/-- C12, counterexample: with power failed for 10 ticks, then battery low for 7
ticks, then power failed, the debounced state leaves `U_OK` on tick 6 and is not
`U_OK` on the ticks 6 to 16; after tick 16, ten ticks later, the elapsed counter
is 9. -/
theorem count_misses_a_tick :
    stateOn tiocm 0 failLowFail 5 = U_OK
      ∧ (∀ j, 6 ≤ j → j ≤ 16 → stateOn tiocm 0 failLowFail j ≠ U_OK)
      ∧ stateOn tiocm 0 failLowFail 15 = U_FAIL ∧ stateOn tiocm 0 failLowFail 16 = U_LOW
      ∧ countOn tiocm 0 failLowFail 15 = 9
      ∧ countOn tiocm 0 failLowFail 16 = 9
      ∧ countOn tiocm 0 failLowFail 16 ≠ POLL_INTERVAL * (16 - 6) := by
  decide

/-! ## The age of the kill signal -/

theorem bump_le (st : UState) (s : MainStatics) : bump st s ≤ s.count + 1 := by
  unfold bump
  simp only [POLL_INTERVAL]
  split_ifs <;> omega

theorem loopBody_low_killtime (s : MainStatics) :
    (loopBody U_LOW s).1.killtime
      = if s.killtime = 0 then s.killtime + POLL_INTERVAL
        else if s.killtime ≥ KILL_TIME then s.killtime else s.killtime + POLL_INTERVAL := by
  rw [loopBody_low]

theorem loopBody_fail_killtime (s : MainStatics) :
    (loopBody U_FAIL s).1.killtime
      = if bump U_FAIL s ≥ SHUTDOWN_TIME - KILL_TIME ∧ s.killtime = 0
        then s.killtime + POLL_INTERVAL else s.killtime := by
  rw [loopBody_fail]

/-- While `killtime` is 0 the elapsed counter is below 290; once it is not,
there is a tick `m` that called `killups()`, with no `U_OK` since, and both
`killtime` and the excess of the counter over 289 are at most the number of
ticks from `m` on. -/
theorem kill_age (sts : Nat → UState) (n : Nat) :
    ((runMain sts n).killtime = 0 → (runMain sts n).count ≤ 289)
      ∧ ((runMain sts n).killtime ≠ 0 →
          ∃ m, m < n ∧ Call.killups ∈ mainCalls sts m
            ∧ (∀ j, m ≤ j → j < n → sts j ≠ U_OK)
            ∧ (runMain sts n).killtime ≤ (n : Int) - m
            ∧ (runMain sts n).count ≤ 289 + ((n : Int) - m)) := by
  induction n with
  | zero => exact ⟨fun _ => show (0 : Int) ≤ 289 by decide, fun h => absurd rfl h⟩
  | succ n ih =>
    have hb := runMain_bounds sts n
    have hbl := bump_le (sts n) (runMain sts n)
    have hcnt := loopBody_count (sts n) (runMain sts n)
    rw [runMain_succ]
    cases hst : sts n
    · rw [loopBody_ok]
      exact ⟨fun _ => show (0 : Int) ≤ 289 by decide, fun h => absurd rfl h⟩
    · rw [hst] at hbl hcnt
      rw [if_neg (by simp)] at hcnt
      have hkt := loopBody_low_killtime (runMain sts n)
      simp only [KILL_TIME, POLL_INTERVAL] at hkt hb
      by_cases hk : (runMain sts n).killtime = 0
      · have hc := ih.1 hk
        rw [if_pos hk] at hkt
        refine ⟨fun h => by omega, fun _ => ⟨n, by omega, ?_, ?_, ?_, ?_⟩⟩
        · show Call.killups ∈ (loopBody (sts n) (runMain sts n)).2
          rw [hst, mem_loopBody_killups]
          exact Or.inl ⟨rfl, hk⟩
        · intro j h1 h2
          have : j = n := by omega
          rw [this, hst]; simp
        · rw [hkt]; push_cast; omega
        · rw [hcnt]; push_cast; omega
      · obtain ⟨m, h1, h2, h3, h4, h5⟩ := ih.2 hk
        rw [if_neg hk] at hkt
        refine ⟨fun h => ?_, fun _ => ⟨m, by omega, h2, ?_, ?_, ?_⟩⟩
        · rw [hkt] at h; exfalso; split_ifs at h <;> omega
        · intro j hj1 hj2
          by_cases hjn : j = n
          · rw [hjn, hst]; simp
          · exact h3 j hj1 (by omega)
        · rw [hkt]; push_cast; split_ifs <;> omega
        · rw [hcnt]; push_cast; omega
    · rw [hst] at hbl hcnt
      rw [if_neg (by simp)] at hcnt
      have hkt := loopBody_fail_killtime (runMain sts n)
      simp only [KILL_TIME, POLL_INTERVAL, SHUTDOWN_TIME] at hkt hb
      by_cases hk : (runMain sts n).killtime = 0
      · have hc := ih.1 hk
        by_cases hge : bump U_FAIL (runMain sts n) ≥ 300 - 10
        · rw [if_pos ⟨hge, hk⟩] at hkt
          refine ⟨fun h => by omega, fun _ => ⟨n, by omega, ?_, ?_, ?_, ?_⟩⟩
          · show Call.killups ∈ (loopBody (sts n) (runMain sts n)).2
            rw [hst, mem_loopBody_killups]
            exact Or.inr ⟨rfl, hge, hk⟩
          · intro j h1 h2
            have : j = n := by omega
            rw [this, hst]; simp
          · rw [hkt]; push_cast; omega
          · rw [hcnt]; push_cast; omega
        · rw [if_neg (fun h => hge h.1)] at hkt
          refine ⟨fun _ => by rw [hcnt]; omega, fun h => absurd (hkt.trans hk) h⟩
      · obtain ⟨m, h1, h2, h3, h4, h5⟩ := ih.2 hk
        rw [if_neg (fun h => hk h.2)] at hkt
        refine ⟨fun h => absurd (hkt.symm.trans h) hk, fun _ => ⟨m, by omega, h2, ?_, ?_, ?_⟩⟩
        · intro j hj1 hj2
          by_cases hjn : j = n
          · rw [hjn, hst]; simp
          · exact h3 j hj1 (by omega)
        · rw [hkt]; push_cast; omega
        · rw [hcnt]; push_cast; omega

/-- C18: whatever states `readline()` returns to the main loop from its initial
state, on a tick that calls `shutdown()` the counter `killtime` is not 0, and
some tick at least `KILL_TIME` ticks earlier called `killups()`, with no tick in
the state `U_OK` from that one to this. -/
theorem shutdown_after_kill_time (sts : Nat → UState) (n : Nat)
    (h : Call.shutdown ∈ mainCalls sts n) :
    (runMain sts n).killtime ≠ 0
      ∧ ∃ m : Nat, (m : Int) + KILL_TIME ≤ (n : Int) ∧ Call.killups ∈ mainCalls sts m
          ∧ ∀ j : Nat, m ≤ j → j ≤ n → sts j ≠ U_OK := by
  have hb := bump_le U_FAIL (runMain sts n)
  have ha := kill_age sts n
  have hs : Call.shutdown ∈ (loopBody (sts n) (runMain sts n)).2 := h
  rw [mem_loopBody_shutdown] at hs
  simp only [KILL_TIME, SHUTDOWN_TIME] at *
  have hk : (runMain sts n).killtime ≠ 0 := by
    rcases hs with ⟨_, h0, _⟩ | ⟨_, hc⟩
    · exact h0
    · intro h0
      have := ha.1 h0
      omega
  have hne : sts n ≠ U_OK := by
    rcases hs with ⟨e, _, _⟩ | ⟨e, _⟩ <;> rw [e] <;> simp
  obtain ⟨m, h1, h2, h3, h4, h5⟩ := ha.2 hk
  refine ⟨hk, m, ?_, h2, ?_⟩
  · rcases hs with ⟨_, _, h10⟩ | ⟨_, hc⟩ <;> omega
  · intro j hj1 hj2
    by_cases hjn : j = n
    · rw [hjn]; exact hne
    · exact h3 j hj1 (by omega)

theorem shutdown_after_kill_time_witness :
    Call.shutdown ∈ mainCalls constLow 10 ∧ Call.killups ∈ mainCalls constLow 0
      ∧ (runMain constLow 10).killtime ≠ 0
      ∧ ∃ m : Nat, (m : Int) + KILL_TIME ≤ ((10 : Nat) : Int)
          ∧ Call.killups ∈ mainCalls constLow m
          ∧ ∀ j : Nat, m ≤ j → j ≤ 10 → constLow j ≠ U_OK :=
  have h := shutdown_after_kill_time constLow 10 (by decide)
  ⟨by decide, by decide, h.1, h.2⟩

/-! ## A failed read of the line status -/

theorem afterIoctl_eq_after (t : Tiocm) (l0 : Nat) (r : Ioctl) (n : Nat) :
    afterIoctl t l0 r n = after t l0 (fun _ => { flags := r.flags, lines := 0 }) n := by
  induction n with
  | zero => rfl
  | succ n ih =>
    show (tickIoctl t r 0 (afterIoctl t l0 r n)).1 = _
    rw [ih]
    rfl

/-- C17, as the code has it: the value returned by the `ioctl` of `readline()`
is not looked at, so a failed read is not detected; the call classifies the word
left in `flags`, and the tick, and every run of ticks, goes on exactly as after a
successful read that stored that word. -/
theorem failed_read_ignored (t : Tiocm) (ret : Int) (w lines l0 : Nat) (s : ReadlineStatics)
    (d : Daemon) (n : Nat) :
    readlineIoctl t { ret := ret, flags := w } s = readline t w s
      ∧ (readlineIoctl t { ret := ret, flags := w } s).lastnextstate = nextstate t w
      ∧ tickIoctl t { ret := ret, flags := w } lines d
          = tick t { flags := w, lines := lines } d
      ∧ afterIoctl t l0 { ret := ret, flags := w } n
          = after t l0 (fun _ => { flags := w, lines := 0 }) n :=
  ⟨rfl, rfl, rfl, afterIoctl_eq_after t l0 { ret := ret, flags := w } n⟩

/-- C17, counterexample: with every read of `readline()` failed (`ret = -1`) and
the word 0 left in `flags`, the loop is not ended: `readline()` returns `U_LOW`
on the seventh tick, which calls `lowmessage()` and `killups()`, and the
seventeenth tick calls `shutdown()`. -/
theorem failed_read_not_fatal :
    failedRead.ret = -1
      ∧ (afterIoctl tiocm 0 failedRead 7).rl.state = U_LOW
      ∧ (tickIoctl tiocm failedRead 0 (afterIoctl tiocm 0 failedRead 6)).2
          = [Call.lowmessage, Call.killups]
      ∧ (tickIoctl tiocm failedRead 0 (afterIoctl tiocm 0 failedRead 16)).2
          = [Call.shutdown] :=
  ⟨by decide, by decide, by decide, by decide⟩

end Upsd
